import Mathlib

/-!
Shallow embedding of the study-scheduler repository (files `study_task.py` and
`branch_bound_scheduler.py`).  Python integers are modelled as `ℤ`, Python floats
as `ℚ` (all float literals appearing in the source are decimal and all arithmetic
on them is modelled exactly), Python lists as `List`, and the day-keyed
`assignments` dict as an association list in insertion order.
-/

attribute [local semireducible] Rat.add Rat.mul Rat.sub Rat.inv

/-- StudyTask from `study_task.py` lines 5-34: a subject with required hours, a
deadline day, priority, difficulty, preferred time slot, prerequisite ids and the
mutable remaining-hours counter (initialised to `required_hours`). -/
structure StudyTask where
  subject_id : ℤ
  name : String
  required_hours : ℤ
  deadline : ℤ
  priority : ℤ
  difficulty : ℤ
  preferred_time : ℤ
  dependencies : List ℤ
  remaining_hours : ℤ
deriving DecidableEq, Repr

/-- Constructor mirroring `StudyTask.__init__`, which sets
`remaining_hours = required_hours`. -/
def mkStudyTask (subject_id : ℤ) (name : String) (required_hours deadline priority difficulty preferred_time : ℤ) (dependencies : List ℤ) : StudyTask :=
  { subject_id := subject_id, name := name, required_hours := required_hours,
    deadline := deadline, priority := priority, difficulty := difficulty,
    preferred_time := preferred_time, dependencies := dependencies,
    remaining_hours := required_hours }

/-- ScheduleNode fields from `study_task.py` lines 37-46.  `assignments` maps a
day to the list of `(subject_id, hours)` sessions committed on that day. -/
structure ScheduleNode where
  current_day : ℤ
  assignments : List (ℤ × List (ℤ × ℤ))
  remaining_tasks : List StudyTask
  objective_score : ℚ
  upper_bound : ℚ
  is_feasible : Bool
deriving DecidableEq, Repr

/-- SchedulingProblem from `study_task.py` lines 139-152 (the four scoring
weights set by `__init__` are the same for every instance and are modelled as
the global constants below). -/
structure SchedulingProblem where
  tasks : List StudyTask
  max_days : ℤ
  max_daily_hours : ℤ
  min_session_hours : ℤ
deriving DecidableEq, Repr

/-- weights["priority"] from `SchedulingProblem.__init__`. -/
def w_priority : ℚ := 3
/-- weights["time_pref"] from `SchedulingProblem.__init__`. -/
def w_time_pref : ℚ := 1
/-- weights["balance"] from `SchedulingProblem.__init__`. -/
def w_balance : ℚ := 2
/-- weights["deadline"] from `SchedulingProblem.__init__`. -/
def w_deadline : ℚ := 4

/-- get_total_required_hours, `study_task.py` lines 154-156. -/
def get_total_required_hours (problem : SchedulingProblem) : ℤ :=
  (problem.tasks.map (fun t => t.required_hours)).sum

/-- SchedulingProblem.is_feasible, `study_task.py` lines 158-162. -/
def problem_is_feasible (problem : SchedulingProblem) : Bool :=
  decide (get_total_required_hours problem ≤ problem.max_days * problem.max_daily_hours)

/-- ScheduleNode._calculate_time_bonus, `study_task.py` lines 117-121: the
stubbed time-preference bonus, a constant 2.0 independent of task and day. -/
def calculate_time_bonus (_task : StudyTask) (_day : ℤ) : ℚ := 2

/-- ScheduleNode._calculate_deadline_penalty, `study_task.py` lines 123-130. -/
def calculate_deadline_penalty (task : StudyTask) (day : ℤ) : ℚ :=
  if task.deadline - day ≤ 0 then 10
  else max 0 (((task.difficulty : ℚ) / 10) * (1 / ((task.deadline : ℚ) - (day : ℚ))))

/-- The first task of `problem.tasks` with the given subject id (the
find-and-break loops in `study_task.py` lines 58-62 and
`branch_bound_scheduler.py` line 224). -/
def findTask (problem : SchedulingProblem) (subject_id : ℤ) : Option StudyTask :=
  problem.tasks.find? (fun t => t.subject_id == subject_id)

/-- ScheduleNode.calculate_objective_score, `study_task.py` lines 48-87, as the
pure value it computes and returns: the sum over every day of `assignments` and
every session of that day of
`(priority_score + time_score + balance_score - deadline_score) * hours`.
Sessions whose subject id is not found contribute nothing (the `continue`). -/
def calculate_objective_score (problem : SchedulingProblem) (node : ScheduleNode) : ℚ :=
  (node.assignments.map (fun da =>
    let day := da.1
    let daily_total_hours : ℤ := (da.2.map (fun s => s.2)).sum
    (da.2.map (fun s =>
      match findTask problem s.1 with
      | none => 0
      | some task =>
          let priority_score := w_priority * (task.priority : ℚ)
          let time_score := w_time_pref * calculate_time_bonus task day
          let balance_bonus := max 0 (2 - (daily_total_hours : ℚ) / (problem.max_daily_hours : ℚ))
          let balance_score := w_balance * balance_bonus
          let deadline_score := w_deadline * calculate_deadline_penalty task day
          (priority_score + time_score + balance_score - deadline_score) * (s.2 : ℚ))).sum)).sum

/-- The method call `node.calculate_objective_score(problem)`: stores the
computed score into the node's `objective_score` field. -/
def setObjectiveScore (problem : SchedulingProblem) (node : ScheduleNode) : ScheduleNode :=
  { node with objective_score := calculate_objective_score problem node }

/-- The `optimistic_future` accumulated by ScheduleNode.calculate_upper_bound,
`study_task.py` lines 92-112: for every task with `remaining_hours > 0`,
`(w_priority*priority + w_time_pref*1.5 + w_balance*1.5) * deadline_factor *
remaining_hours`, with `deadline_factor = 0.7` when
`max(1, deadline - current_day + 1) < max_days - current_day + 1` else `1.0`. -/
def optimistic_future (problem : SchedulingProblem) (node : ScheduleNode) : ℚ :=
  ((node.remaining_tasks.filter (fun t => decide (0 < t.remaining_hours))).map (fun task =>
    let days_until_deadline : ℤ := max 1 (task.deadline - node.current_day + 1)
    let remaining_days : ℤ := problem.max_days - node.current_day + 1
    let deadline_factor : ℚ := if days_until_deadline < remaining_days then 7/10 else 1
    ((w_priority * (task.priority : ℚ) + w_time_pref * (3/2) + w_balance * (3/2)) * deadline_factor) * (task.remaining_hours : ℚ))).sum

/-- The method call `node.calculate_upper_bound(problem)`, `study_task.py`
lines 89-115: stores `objective_score + optimistic_future` into `upper_bound`
(the stored `objective_score` field is used, not a recomputation). -/
def setUpperBound (problem : SchedulingProblem) (node : ScheduleNode) : ScheduleNode :=
  { node with upper_bound := node.objective_score + optimistic_future problem node }

/-- Python `range(a, b)` over integers. -/
def rangeList (a b : ℤ) : List ℤ :=
  (List.range (b - a).toNat).map (fun i => a + Int.ofNat i)

/-- BranchAndBoundScheduler._dependencies_satisfied,
`branch_bound_scheduler.py` lines 266-272. -/
def dependencies_satisfied (node : ScheduleNode) (task : StudyTask) : Bool :=
  task.dependencies.all (fun dep_id =>
    ! node.remaining_tasks.any (fun dep_task =>
        dep_task.subject_id == dep_id && decide (0 < dep_task.remaining_hours)))

/-- BranchAndBoundScheduler._check_feasibility, `branch_bound_scheduler.py`
lines 274-293. -/
def check_feasibility (problem : SchedulingProblem) (node : ScheduleNode) : Bool :=
  if (problem.max_days - node.current_day + 1) * problem.max_daily_hours <
      (node.remaining_tasks.map (fun t => t.remaining_hours)).sum then false
  else
    node.remaining_tasks.all (fun task =>
      if 0 < task.remaining_hours then
        if task.deadline - node.current_day + 1 ≤ 0 then false
        else decide (task.remaining_hours ≤ (task.deadline - node.current_day + 1) * problem.max_daily_hours)
      else true)

/-- The remaining-hours update loop of _create_child_node,
`branch_bound_scheduler.py` lines 241-245: subtract `hours` from the first task
whose id matches `sid` (the inner `break`). -/
def subtract_hours : List StudyTask → ℤ → ℤ → List StudyTask
  | [], _, _ => []
  | t :: ts, sid, hours =>
      if t.subject_id = sid then { t with remaining_hours := t.remaining_hours - hours } :: ts
      else t :: subtract_hours ts sid hours

/-- Python dict assignment `d[k] = v` on the insertion-ordered assignments
dict: replace the value if the key is present, else append the pair. -/
def dictInsert (m : List (ℤ × List (ℤ × ℤ))) (k : ℤ) (v : List (ℤ × ℤ)) : List (ℤ × List (ℤ × ℤ)) :=
  if m.any (fun e => e.1 == k) then m.map (fun e => if e.1 = k then (k, v) else e)
  else m ++ [(k, v)]

/-- BranchAndBoundScheduler._create_child_node, `branch_bound_scheduler.py`
lines 230-252: deep-copy the parent state, apply the combination to day `day`,
subtract the committed hours, then recompute score, bound and feasibility. -/
def create_child_node (problem : SchedulingProblem) (parent : ScheduleNode) (day : ℤ) (combination : List (ℤ × ℤ)) : ScheduleNode :=
  let assignments1 :=
    if combination.isEmpty then parent.assignments
    else dictInsert parent.assignments day combination
  let tasks1 := combination.foldl (fun ts s => subtract_hours ts s.1 s.2) parent.remaining_tasks
  let child : ScheduleNode :=
    { current_day := day + 1, assignments := assignments1, remaining_tasks := tasks1,
      objective_score := 0, upper_bound := 0, is_feasible := true }
  let child := setObjectiveScore problem child
  let child := setUpperBound problem child
  { child with is_feasible := check_feasibility problem child }

/-- BranchAndBoundScheduler._create_skip_day_child, `branch_bound_scheduler.py`
lines 254-264. -/
def create_skip_day_child (problem : SchedulingProblem) (parent : ScheduleNode) : ScheduleNode :=
  let child : ScheduleNode :=
    { current_day := parent.current_day + 1, assignments := parent.assignments,
      remaining_tasks := parent.remaining_tasks,
      objective_score := 0, upper_bound := 0, is_feasible := true }
  let child := setObjectiveScore problem child
  let child := setUpperBound problem child
  { child with is_feasible := check_feasibility problem child }

/-- BranchAndBoundScheduler._calculate_combination_priority,
`branch_bound_scheduler.py` lines 217-228. -/
def calculate_combination_priority (problem : SchedulingProblem) (combination : List (ℤ × ℤ)) : ℚ :=
  if combination.isEmpty then 0
  else
    (combination.map (fun s =>
      match findTask problem s.1 with
      | none => 0
      | some task =>
          let urgency : ℚ := 1 / ((max 1 (task.deadline - 1) : ℤ) : ℚ)
          (task.priority : ℚ) * urgency * (s.2 : ℚ))).sum

/-- Lexicographic order on integer triples (Python tuple comparison). -/
def lex3LE (a b : ℤ × ℤ × ℤ) : Prop :=
  a.1 < b.1 ∨ (a.1 = b.1 ∧ (a.2.1 < b.2.1 ∨ (a.2.1 = b.2.1 ∧ a.2.2 ≤ b.2.2)))

instance (a b : ℤ × ℤ × ℤ) : Decidable (lex3LE a b) := by
  unfold lex3LE; infer_instance

/-- Lexicographic order on integer pairs (Python tuple comparison). -/
def pairLexLE (a b : ℤ × ℤ) : Prop :=
  a.1 < b.1 ∨ (a.1 = b.1 ∧ a.2 ≤ b.2)

instance (a b : ℤ × ℤ) : Decidable (pairLexLE a b) := by
  unfold pairLexLE; infer_instance

/-- The `sorted(subjects, key=lambda s: (s.deadline - day, -s.priority,
-s.difficulty))` call of _generate_smart_combinations (line 149): a stable sort
ascending by the lexicographic key. -/
def sort_subjects (day : ℤ) (subjects : List StudyTask) : List StudyTask :=
  subjects.insertionSort (fun a b =>
    lex3LE (a.deadline - day, -a.priority, -a.difficulty) (b.deadline - day, -b.priority, -b.difficulty))

/-- The `combos.sort(key=self._calculate_combination_priority, reverse=True)`
calls (lines 133-134 and 184): a stable sort descending by priority. -/
def sort_combinations (problem : SchedulingProblem) (combos : List (List (ℤ × ℤ))) : List (List (ℤ × ℤ)) :=
  combos.insertionSort (fun a b =>
    calculate_combination_priority problem b ≤ calculate_combination_priority problem a)

/-- `tuple(sorted(combo))` used as the dedup key (line 179). -/
def canonCombo (c : List (ℤ × ℤ)) : List (ℤ × ℤ) :=
  c.insertionSort pairLexLE

/-- The seen-set deduplication loop of _generate_smart_combinations,
`branch_bound_scheduler.py` lines 176-182. -/
def dedupCombos : List (List (ℤ × ℤ)) → List (List (ℤ × ℤ)) → List (List (ℤ × ℤ))
  | _, [] => []
  | seen, c :: rest =>
      if canonCombo c ∈ seen then dedupCombos seen rest
      else c :: dedupCombos (canonCombo c :: seen) rest

/-- Strategy 1 of _generate_smart_combinations (lines 152-157): single-subject
allocations for the most urgent subject, every legal hour count. -/
def smart_strategy1 (problem : SchedulingProblem) (subjects_by_priority : List StudyTask) : List (List (ℤ × ℤ)) :=
  match subjects_by_priority with
  | [] => []
  | urgent_subject :: _ =>
      let max_hours := min urgent_subject.remaining_hours problem.max_daily_hours
      (rangeList problem.min_session_hours (max_hours + 1)).map
        (fun hours => [(urgent_subject.subject_id, hours)])

/-- Strategy 2 of _generate_smart_combinations (lines 159-168): balanced splits
over the two most urgent subjects. -/
def smart_strategy2 (problem : SchedulingProblem) (subjects_by_priority : List StudyTask) : List (List (ℤ × ℤ)) :=
  match subjects_by_priority with
  | s1 :: s2 :: _ =>
      (rangeList problem.min_session_hours
          (min s1.remaining_hours (problem.max_daily_hours - problem.min_session_hours) + 1)).flatMap
        (fun h1 =>
          if problem.min_session_hours ≤ min s2.remaining_hours (problem.max_daily_hours - h1) then
            (rangeList problem.min_session_hours (min s2.remaining_hours (problem.max_daily_hours - h1) + 1)).map
              (fun h2 => [(s1.subject_id, h1), (s2.subject_id, h2)])
          else [])
  | _ => []

/-- Strategy 3 of _generate_smart_combinations (lines 170-173): complete a
subject whose full remaining hours fit in one day (no minimum-session check). -/
def smart_strategy3 (problem : SchedulingProblem) (subjects_by_priority : List StudyTask) : List (List (ℤ × ℤ)) :=
  (subjects_by_priority.filter (fun s => decide (s.remaining_hours ≤ problem.max_daily_hours))).map
    (fun s => [(s.subject_id, s.remaining_hours)])

/-- BranchAndBoundScheduler._generate_smart_combinations,
`branch_bound_scheduler.py` lines 144-185: the three strategies over the
urgency-sorted subjects, deduplicated, sorted by combination priority, top 15. -/
def generate_smart_combinations (problem : SchedulingProblem) (subjects : List StudyTask) (day : ℤ) : List (List (ℤ × ℤ)) :=
  let subjects_by_priority := sort_subjects day subjects
  let combinations := smart_strategy1 problem subjects_by_priority ++
    smart_strategy2 problem subjects_by_priority ++ smart_strategy3 problem subjects_by_priority
  (sort_combinations problem (dedupCombos [] combinations)).take 15

/-- The recursive `backtrack` enumerator inside _generate_daily_combinations,
`branch_bound_scheduler.py` lines 191-213, in DFS emission order (skip the
subject first, then each legal hour count ascending). -/
def backtrackCombos (problem : SchedulingProblem) : List StudyTask → List (ℤ × ℤ) → ℤ → List (List (ℤ × ℤ))
  | [], current_combo, _ => if current_combo.isEmpty then [] else [current_combo]
  | subject :: rest, current_combo, remaining_hours =>
      let max_allocatable := min remaining_hours subject.remaining_hours
      backtrackCombos problem rest current_combo remaining_hours ++
        (rangeList problem.min_session_hours (max_allocatable + 1)).flatMap
          (fun hours =>
            if hours ≤ remaining_hours then
              backtrackCombos problem rest (current_combo ++ [(subject.subject_id, hours)]) (remaining_hours - hours)
            else [])

/-- BranchAndBoundScheduler._generate_daily_combinations,
`branch_bound_scheduler.py` lines 187-215. -/
def generate_daily_combinations (problem : SchedulingProblem) (subjects : List StudyTask) (max_hours : ℤ) : List (List (ℤ × ℤ)) :=
  backtrackCombos problem subjects [] max_hours

/-- The combination-selection step of _generate_children (lines 124-135):
smart combinations for more than 5 tasks, else all non-empty daily combinations
sorted by combination priority, top 20. -/
def selected_combinations (problem : SchedulingProblem) (available_subjects : List StudyTask) (next_day : ℤ) : List (List (ℤ × ℤ)) :=
  if 5 < problem.tasks.length then
    generate_smart_combinations problem available_subjects next_day
  else
    let combinations := generate_daily_combinations problem available_subjects problem.max_daily_hours
    let non_empty_combinations := combinations.filter (fun c => ! c.isEmpty)
    (sort_combinations problem non_empty_combinations).take 20

/-- The available-subjects filter of _generate_children (lines 112-115): tasks
with hours left whose dependencies are all satisfied. -/
def available_subjects (node : ScheduleNode) : List StudyTask :=
  node.remaining_tasks.filter
    (fun t => decide (0 < t.remaining_hours) && dependencies_satisfied node t)

/-- BranchAndBoundScheduler._generate_children, `branch_bound_scheduler.py`
lines 104-142: empty past the horizon; otherwise the (unconditionally appended)
skip-day child followed by the feasible combination children. -/
def generate_children (problem : SchedulingProblem) (node : ScheduleNode) : List ScheduleNode :=
  if problem.max_days < node.current_day then []
  else if (available_subjects node).isEmpty then [create_skip_day_child problem node]
  else
    create_skip_day_child problem node ::
      ((selected_combinations problem (available_subjects node) node.current_day).map
          (fun c => create_child_node problem node node.current_day c)).filter
        (fun c => c.is_feasible)

/-- BranchAndBoundScheduler._is_complete_solution, `branch_bound_scheduler.py`
lines 96-102. -/
def is_complete_solution (problem : SchedulingProblem) (node : ScheduleNode) : Bool :=
  node.remaining_tasks.all (fun t => decide (t.remaining_hours ≤ 0)) ||
    decide (problem.max_days < node.current_day)

/-!
The frontier: Python's `heapq` over triples `(-upper_bound, counter, node)`.
Tuple comparison is lexicographic; the strictly increasing counter makes the
first two components a total key, so the node component is never compared
(comparing nodes would raise in Python).  The functions below are CPython's
`_siftdown`, `_siftup`, `heappush`, `heappop` and `heapify` on the array,
modelled as a `List`.
-/

/-- A frontier entry `(-upper_bound, counter, node)`. -/
abbrev FrontierEntry : Type := ℚ × ℕ × ScheduleNode

/-- Placeholder used for out-of-range list reads (never hit on the index ranges
the heap routines use). -/
def defaultNode : ScheduleNode :=
  { current_day := 1, assignments := [], remaining_tasks := [],
    objective_score := 0, upper_bound := 0, is_feasible := true }

/-- Placeholder frontier entry. -/
def defaultEntry : FrontierEntry := (0, 0, defaultNode)

/-- Python `<` on frontier entries: lexicographic on the first two components. -/
def entryLT (a b : FrontierEntry) : Bool :=
  decide (a.1 < b.1) || (decide (a.1 = b.1) && decide (a.2.1 < b.2.1))

/-- Reflexive companion of `entryLT` (same lexicographic key order). -/
def entryLE (a b : FrontierEntry) : Bool :=
  decide (a.1 < b.1) || (decide (a.1 = b.1) && decide (a.2.1 ≤ b.2.1))

/-- The loop of CPython `_siftdown(heap, startpos, pos)`: bubble the item at
`pos` up toward `startpos` until its parent is not larger.  The loop position
strictly decreases, so it is driven by a fuel counter that the wrapper below
instantiates large enough never to run out; if fuel did run out the behaviour
coincides with the loop's exit action. -/
def siftdownAux (startpos : ℕ) (newitem : FrontierEntry) : ℕ → List FrontierEntry → ℕ → List FrontierEntry
  | 0, heap, pos => heap.set pos newitem
  | fuel + 1, heap, pos =>
      if startpos < pos then
        if entryLT newitem (heap.getD ((pos - 1) / 2) defaultEntry) then
          siftdownAux startpos newitem fuel
            (heap.set pos (heap.getD ((pos - 1) / 2) defaultEntry)) ((pos - 1) / 2)
        else heap.set pos newitem
      else heap.set pos newitem

/-- CPython `_siftdown(heap, startpos, pos)` (the position decreases on every
iteration, so `pos + 1` rounds of fuel always suffice). -/
def siftdown (startpos : ℕ) (newitem : FrontierEntry) (heap : List FrontierEntry) (pos : ℕ) : List FrontierEntry :=
  siftdownAux startpos newitem (pos + 1) heap pos

/-- The child-index choice inside CPython `_siftup`: move to the right sibling
when it exists and the left child is not smaller. -/
def pickChild (heap : List FrontierEntry) (endpos childpos : ℕ) : ℕ :=
  if childpos + 1 < endpos && ! entryLT (heap.getD childpos defaultEntry) (heap.getD (childpos + 1) defaultEntry) then
    childpos + 1
  else childpos

/-- The descending loop of CPython `_siftup`: move the smaller child up into
the hole at `pos` until `pos` is a leaf, then place `newitem` and sift it down
toward `startpos`.  The position strictly increases toward `endpos`, so fuel
`endpos` (as instantiated by `siftup`) never runs out; if it did the behaviour
coincides with the loop's exit action. -/
def siftupLoopAux (endpos startpos : ℕ) (newitem : FrontierEntry) : ℕ → List FrontierEntry → ℕ → List FrontierEntry
  | 0, heap, pos => siftdown startpos newitem heap pos
  | fuel + 1, heap, pos =>
      if 2 * pos + 1 < endpos then
        siftupLoopAux endpos startpos newitem fuel
          (heap.set pos (heap.getD (pickChild heap endpos (2 * pos + 1)) defaultEntry))
          (pickChild heap endpos (2 * pos + 1))
      else
        siftdown startpos newitem heap pos

/-- CPython `_siftup(heap, pos)`. -/
def siftup (heap : List FrontierEntry) (pos : ℕ) : List FrontierEntry :=
  siftupLoopAux heap.length pos (heap.getD pos defaultEntry) heap.length heap pos

/-- CPython `heapq.heappush`. -/
def heappush (heap : List FrontierEntry) (item : FrontierEntry) : List FrontierEntry :=
  siftdown 0 item (heap ++ [item]) heap.length

/-- CPython `heapq.heappop`: `none` on the empty heap (Python raises), else the
minimal entry and the remaining heap. -/
def heappop (heap : List FrontierEntry) : Option (FrontierEntry × List FrontierEntry) :=
  match heap.getLast? with
  | none => none
  | some lastelt =>
      if heap.dropLast.isEmpty then some (lastelt, [])
      else some (heap.dropLast.getD 0 defaultEntry, siftup (heap.dropLast.set 0 lastelt) 0)

/-- CPython `heapq.heapify`: `_siftup` on indices `n//2 - 1, ..., 0`. -/
def heapify (heap : List FrontierEntry) : List FrontierEntry :=
  (List.range (heap.length / 2)).reverse.foldl (fun h i => siftup h i) heap

/-- The frontier size cap of `BranchAndBoundScheduler.solve` (line 41):
1000 for more than 5 tasks, else 10000. -/
def max_queue_size (problem : SchedulingProblem) : ℕ :=
  if 5 < problem.tasks.length then 1000 else 10000

/-- The frontier truncation of `solve` (lines 71-74): when the queue exceeds
the cap, keep the first half of the heap array and re-heapify it. -/
def truncate_queue (cap : ℕ) (queue : List FrontierEntry) : List FrontierEntry :=
  if cap < queue.length then heapify (queue.take (cap / 2)) else queue

/-- Mutable state of `BranchAndBoundScheduler.solve`.  `best_score` starts at
`float('-inf')`, modelled as `none`. -/
structure BBState where
  queue : List FrontierEntry
  node_counter : ℕ
  best_solution : Option ScheduleNode
  best_score : Option ℚ
  nodes_explored : ℕ
  nodes_pruned : ℕ
deriving Repr

/-- Python `x <= best_score` with `best_score` possibly `-inf`. -/
def leBest (x : ℚ) (best : Option ℚ) : Bool :=
  match best with
  | none => false
  | some b => decide (x ≤ b)

/-- Python `best_score < x` with `best_score` possibly `-inf`. -/
def bestLT (best : Option ℚ) (x : ℚ) : Bool :=
  match best with
  | none => true
  | some b => decide (b < x)

/-- The child-pushing loop of `solve` (lines 76-82): push a child only when it
is feasible and its bound beats the incumbent, else count it pruned. -/
def push_children (st : BBState) (children : List ScheduleNode) : BBState :=
  children.foldl
    (fun s child =>
      if child.is_feasible && bestLT s.best_score child.upper_bound then
        { s with queue := heappush s.queue (-child.upper_bound, s.node_counter, child),
                 node_counter := s.node_counter + 1 }
      else { s with nodes_pruned := s.nodes_pruned + 1 })
    st

/-- One-per-iteration body of the `solve` loop (lines 43-82), iterated on
fuel.  The wall-clock time limit is polled once per iteration in the source;
with `time_limit=None` the loop runs until the frontier empties, which is what
the fuel models (termination claims are outside this embedding's scope). -/
def solveLoop (problem : SchedulingProblem) : ℕ → BBState → BBState
  | 0, st => st
  | Nat.succ fuel, st =>
      match heappop st.queue with
      | none => st
      | some (e, q') =>
          let st1 : BBState := { st with queue := q', nodes_explored := st.nodes_explored + 1 }
          if leBest (-e.1) st1.best_score then
            solveLoop problem fuel { st1 with nodes_pruned := st1.nodes_pruned + 1 }
          else if is_complete_solution problem e.2.2 then
            let node := setObjectiveScore problem e.2.2
            if bestLT st1.best_score node.objective_score then
              solveLoop problem fuel
                { st1 with best_score := some node.objective_score, best_solution := some node }
            else solveLoop problem fuel st1
          else
            let children := generate_children problem e.2.2
            let st2 : BBState := { st1 with queue := truncate_queue (max_queue_size problem) st1.queue }
            solveLoop problem fuel (push_children st2 children)

/-- The root node built at the top of `solve` (lines 29-31): day 1, empty
assignments, a fresh copy of the problem's tasks, and only the upper bound
computed (`objective_score` keeps its initial 0). -/
def rootNode (problem : SchedulingProblem) : ScheduleNode :=
  setUpperBound problem
    { current_day := 1, assignments := [], remaining_tasks := problem.tasks,
      objective_score := 0, upper_bound := 0, is_feasible := true }

/-- BranchAndBoundScheduler.solve (lines 21-88), run for `fuel` loop
iterations, returning the final interesting state. -/
def solveState (problem : SchedulingProblem) (fuel : ℕ) : BBState :=
  let root := rootNode problem
  solveLoop problem fuel
    { queue := [(-root.upper_bound, 0, root)], node_counter := 1,
      best_solution := none, best_score := none, nodes_explored := 0, nodes_pruned := 0 }

/-- The value returned by `solve`: the best solution found (possibly none). -/
def solveBB (problem : SchedulingProblem) (fuel : ℕ) : Option ScheduleNode :=
  (solveState problem fuel).best_solution

/-!  Predicates, spec-side definitions and concrete instances used by the
claims. -/

/-- Total hours of a day combination. -/
def sum_hours (combination : List (ℤ × ℤ)) : ℤ :=
  (combination.map (fun s => s.2)).sum

/-- Capacity invariant on a node: every day of `assignments` commits at most
`max_daily_hours` hours in total. -/
def capacityOK (problem : SchedulingProblem) (node : ScheduleNode) : Prop :=
  ∀ da ∈ node.assignments, sum_hours da.2 ≤ problem.max_daily_hours

/-- Deadline invariant on a node: no session is committed on a day strictly
after the deadline of a problem task carrying that session's subject id. -/
def deadlineOK (problem : SchedulingProblem) (node : ScheduleNode) : Prop :=
  ∀ da ∈ node.assignments, ∀ s ∈ da.2, ∀ t ∈ problem.tasks, t.subject_id = s.1 → da.1 ≤ t.deadline

/-- The immutable identity of a task: its subject id and deadline (the parts of
a snapshot never touched by `subtract_hours`, which are what the deadline
invariant reads off the problem's task list). -/
def taskKey (t : StudyTask) : ℤ × ℤ := (t.subject_id, t.deadline)

/-- Nodes reachable from the search root through the child-generation step
relation of the scheduler. -/
inductive ReachableNode (problem : SchedulingProblem) : ScheduleNode → Prop
  | root : ReachableNode problem (rootNode problem)
  | step {n c : ScheduleNode} : ReachableNode problem n → c ∈ generate_children problem n →
      ReachableNode problem c

/-- The upper bound a frontier entry encodes (entries store its negation). -/
def entryBound (e : FrontierEntry) : ℚ := -e.1

/-- The binary-heap array invariant maintained by `heapq`: every non-root
element is at least its parent in the lexicographic entry order. -/
def heapInvB (q : List FrontierEntry) : Bool :=
  (List.range q.length).all (fun j =>
    decide (j = 0) || entryLE (q.getD ((j - 1) / 2) defaultEntry) (q.getD j defaultEntry))

/-- Keys of a concrete 1001-element heap array: a chain of small keys along the
ancestor path of index 1000 (depths 0..9), and large keys `100 + i` elsewhere. -/
def exKey (i : ℕ) : ℚ :=
  if i = 0 then 0 else if i = 2 then 1 else if i = 6 then 2 else if i = 14 then 3
  else if i = 30 then 4 else if i = 61 then 5 else if i = 124 then 6 else if i = 249 then 7
  else if i = 499 then 8 else if i = 1000 then 9 else ((100 + i : ℕ) : ℚ)

/-- Builds the frontier entries for indices `i, i+1, ..., i+n-1`. -/
def mkQ : ℕ → ℕ → List FrontierEntry
  | _, 0 => []
  | i, n + 1 => (exKey i, i, defaultNode) :: mkQ (i + 1) n

/-- A concrete valid 1001-entry frontier: the entry with key 9 (bound -9) sits
at array index 1000, outside the first half of the heap array. -/
def exQ : List FrontierEntry := mkQ 0 1001

/-- Upper-bound formula exactly as the specification words it: the deadline
factor is 0.7 when `(deadlineDay - currentDay + 1) < (horizonDays - currentDay
+ 1)` — without the `max(1, ...)` clamp the code applies to the left side. -/
def spec_upper_bound (problem : SchedulingProblem) (node : ScheduleNode) : ℚ :=
  node.objective_score +
    ((node.remaining_tasks.filter (fun t => decide (0 < t.remaining_hours))).map (fun task =>
      let deadline_factor : ℚ :=
        if task.deadline - node.current_day + 1 < problem.max_days - node.current_day + 1 then 7/10 else 1
      (((task.priority : ℚ) * w_priority + (3/2) * w_time_pref + (3/2) * w_balance) * deadline_factor) *
        (task.remaining_hours : ℚ))).sum

/-- Upper-bound formula in the specification's wording, amended with the
`max(1, ...)` clamp the code applies to the days-until-deadline side of the
deadline-factor comparison. -/
def amended_upper_bound (problem : SchedulingProblem) (node : ScheduleNode) : ℚ :=
  node.objective_score +
    ((node.remaining_tasks.filter (fun t => decide (0 < t.remaining_hours))).map (fun task =>
      let deadline_factor : ℚ :=
        if max 1 (task.deadline - node.current_day + 1) < problem.max_days - node.current_day + 1 then 7/10 else 1
      (((task.priority : ℚ) * w_priority + (3/2) * w_time_pref + (3/2) * w_balance) * deadline_factor) *
        (task.remaining_hours : ℚ))).sum

/-- The task snapshot of a node lists the same ids and deadlines, in the same
order, as the problem's task list (only remaining hours ever differ). -/
def snapshot_consistent (problem : SchedulingProblem) (node : ScheduleNode) : Prop :=
  node.remaining_tasks.map taskKey = problem.tasks.map taskKey

/-- Every task of the snapshot that still has hours left has its deadline at or
after the node's current day. -/
def open_deadlines (node : ScheduleNode) : Prop :=
  ∀ t ∈ node.remaining_tasks, 0 < t.remaining_hours → node.current_day ≤ t.deadline

/-- A node predicate holding for every node in the frontier and for the
incumbent best solution of a search state. -/
def NodesP (P : ScheduleNode → Prop) (st : BBState) : Prop :=
  (∀ e ∈ st.queue, P e.2.2) ∧ (∀ s, st.best_solution = some s → P s)

/-!  Object-store model for the copy-on-branch claim.  Python nodes hold
references to a mutable assignments dict and a mutable task-list object; the
store below makes those references explicit so that `copy.deepcopy` (fresh
cells) versus aliasing (shared cells) is observable.  `_create_child_node` and
`_create_skip_day_child` deep-copy both structures and then mutate only the
fresh cells; the scorer and bound computation read but never write the store. -/

/-- The object store: assignment dicts and task-list objects, addressed by
allocation index. -/
structure ObjStore where
  dicts : List (List (ℤ × List (ℤ × ℤ)))
  taskLists : List (List StudyTask)
deriving Repr

/-- A schedule node as Python holds it: references into the store for the two
mutable structures, plain values for the scalar fields. -/
structure NodeRef where
  current_day : ℤ
  assignRef : ℕ
  tasksRef : ℕ
  objective_score : ℚ
  upper_bound : ℚ
  is_feasible : Bool
deriving Repr

/-- A problem as Python holds it: a reference to its (never mutated) task-list
object plus the scalar fields. -/
structure ProblemRef where
  tasksRef : ℕ
  max_days : ℤ
  max_daily_hours : ℤ
  min_session_hours : ℤ
deriving Repr

/-- Dereference a problem. -/
def derefProblem (store : ObjStore) (pr : ProblemRef) : SchedulingProblem :=
  { tasks := store.taskLists.getD pr.tasksRef [],
    max_days := pr.max_days, max_daily_hours := pr.max_daily_hours,
    min_session_hours := pr.min_session_hours }

/-- Dereference a node. -/
def derefNode (store : ObjStore) (n : NodeRef) : ScheduleNode :=
  { current_day := n.current_day,
    assignments := store.dicts.getD n.assignRef [],
    remaining_tasks := store.taskLists.getD n.tasksRef [],
    objective_score := n.objective_score, upper_bound := n.upper_bound,
    is_feasible := n.is_feasible }

/-- _create_child_node on the object store: `copy.deepcopy` allocates fresh
cells for the child's assignments and task snapshot; the combination is then
applied to those fresh cells only, and score, bound and feasibility are
computed by the (read-only) scorer. -/
def create_child_node_ref (store : ObjStore) (pr : ProblemRef) (parent : NodeRef) (day : ℤ) (combination : List (ℤ × ℤ)) : NodeRef × ObjStore :=
  let parent_assignments := store.dicts.getD parent.assignRef []
  let parent_tasks := store.taskLists.getD parent.tasksRef []
  let child_assignments :=
    if combination.isEmpty then parent_assignments
    else dictInsert parent_assignments day combination
  let child_tasks := combination.foldl (fun ts s => subtract_hours ts s.1 s.2) parent_tasks
  let aRef := store.dicts.length
  let tRef := store.taskLists.length
  let store' : ObjStore :=
    { dicts := store.dicts ++ [child_assignments], taskLists := store.taskLists ++ [child_tasks] }
  let problem := derefProblem store' pr
  let child0 : ScheduleNode :=
    { current_day := day + 1, assignments := child_assignments, remaining_tasks := child_tasks,
      objective_score := 0, upper_bound := 0, is_feasible := true }
  let child1 := setObjectiveScore problem child0
  let child2 := setUpperBound problem child1
  ({ current_day := day + 1, assignRef := aRef, tasksRef := tRef,
     objective_score := child2.objective_score, upper_bound := child2.upper_bound,
     is_feasible := check_feasibility problem child2 }, store')

/-- _create_skip_day_child on the object store. -/
def create_skip_day_child_ref (store : ObjStore) (pr : ProblemRef) (parent : NodeRef) : NodeRef × ObjStore :=
  let parent_assignments := store.dicts.getD parent.assignRef []
  let parent_tasks := store.taskLists.getD parent.tasksRef []
  let aRef := store.dicts.length
  let tRef := store.taskLists.length
  let store' : ObjStore :=
    { dicts := store.dicts ++ [parent_assignments], taskLists := store.taskLists ++ [parent_tasks] }
  let problem := derefProblem store' pr
  let child0 : ScheduleNode :=
    { current_day := parent.current_day + 1, assignments := parent_assignments,
      remaining_tasks := parent_tasks,
      objective_score := 0, upper_bound := 0, is_feasible := true }
  let child1 := setObjectiveScore problem child0
  let child2 := setUpperBound problem child1
  ({ current_day := parent.current_day + 1, assignRef := aRef, tasksRef := tRef,
     objective_score := child2.objective_score, upper_bound := child2.upper_bound,
     is_feasible := check_feasibility problem child2 }, store')

/-!  Concrete instances used by witnesses and counterexamples. -/

/-- The one-task problem of the specification's concrete scoring scenario. -/
def scenario_problem : SchedulingProblem :=
  { tasks := [mkStudyTask 1 "A" 2 2 5 1 1 []], max_days := 2, max_daily_hours := 2,
    min_session_hours := 1 }

/-- A node committing the full 2 hours of the scenario task on day 1. -/
def scenario_node : ScheduleNode :=
  create_child_node scenario_problem (rootNode scenario_problem) 1 [(1, 2)]

/-- One task, 1 required hour, deadline 2, priority 1, difficulty 1; horizon 2
days of 10 hours. -/
def cex1_problem : SchedulingProblem :=
  { tasks := [mkStudyTask 1 "A" 1 2 1 1 1 []], max_days := 2, max_daily_hours := 10,
    min_session_hours := 1 }

/-- The complete one-session child reachable in one step from the root of
`cex1_problem`; its realized score 8.4 exceeds the root's bound 7.5. -/
def cex1_child : ScheduleNode :=
  create_child_node cex1_problem (rootNode cex1_problem) 1 [(1, 1)]

/-- One task with remaining hours, deadline 1, examined at day 5 of a 5-day
horizon: the clamp `max(1, 1 - 5 + 1) = 1` makes the code's deadline-factor
condition false while the specification's unclamped condition is true. -/
def cex3_problem : SchedulingProblem :=
  { tasks := [mkStudyTask 1 "C" 1 1 1 1 1 []], max_days := 5, max_daily_hours := 2,
    min_session_hours := 1 }

/-- Day-5 node holding the `cex3_problem` task unfinished. -/
def cex3_node : ScheduleNode :=
  { current_day := 5, assignments := [], remaining_tasks := cex3_problem.tasks,
    objective_score := 0, upper_bound := 0, is_feasible := true }

/-- Six tasks (so the smart combination generator runs), minimum session 2,
capacity 2; task 1 needs 3 hours, so after one 2-hour day it retains 1 < 2
remaining hours and the complete-a-subject strategy emits a 1-hour session. -/
def cex6_problem : SchedulingProblem :=
  { tasks := [mkStudyTask 1 "T1" 3 9 5 5 1 [], mkStudyTask 2 "T2" 2 9 1 1 1 [],
              mkStudyTask 3 "T3" 2 9 1 1 1 [], mkStudyTask 4 "T4" 2 9 1 1 1 [],
              mkStudyTask 5 "T5" 2 9 1 1 1 [], mkStudyTask 6 "T6" 2 9 1 1 1 []],
    max_days := 9, max_daily_hours := 2, min_session_hours := 2 }

/-- Child of the `cex6_problem` root committing 2 of task 1's 3 hours on day 1. -/
def cex6_mid : ScheduleNode :=
  create_child_node cex6_problem (rootNode cex6_problem) 1 [(1, 2)]

/-- Grandchild committing task 1's single remaining hour on day 2 — a session
below the 2-hour floor. -/
def cex6_bad : ScheduleNode :=
  create_child_node cex6_problem cex6_mid 2 [(1, 1)]

/-- One task needing 2 hours by deadline 1 within a 3-day horizon: skipping
day 1 is infeasible, so the root's skip child fails the feasibility check yet
is still returned by the child generator. -/
def cex7_problem : SchedulingProblem :=
  { tasks := [mkStudyTask 1 "B" 2 1 1 1 1 []], max_days := 3, max_daily_hours := 2,
    min_session_hours := 1 }

/-- A task whose deadline day 0 precedes the whole 1-day horizon: the solver
still returns a schedule studying it on day 1. -/
def cex8_problem : SchedulingProblem :=
  { tasks := [mkStudyTask 1 "Z" 1 0 1 1 1 []], max_days := 1, max_daily_hours := 1,
    min_session_hours := 1 }

/-- Object store for the copy-on-branch witness: one assignments dict (the
parent's, empty) and two task-list cells (the problem's original list and the
parent's snapshot copy). -/
def cex9_store : ObjStore :=
  { dicts := [[]], taskLists := [scenario_problem.tasks, scenario_problem.tasks] }

/-- Problem reference for the copy-on-branch witness. -/
def cex9_problem_ref : ProblemRef :=
  { tasksRef := 0, max_days := 2, max_daily_hours := 2, min_session_hours := 1 }

/-- Parent node reference for the copy-on-branch witness. -/
def cex9_parent : NodeRef :=
  { current_day := 1, assignRef := 0, tasksRef := 1, objective_score := 0, upper_bound := 0,
    is_feasible := true }

/-!  Helper lemmas: each heap routine permutes the entries of the array, so
push, pop, heapify and the truncation re-heapify preserve the multiset of
frontier entries (up to entries explicitly added or dropped). -/

theorem set_getD_self {α : Type} (l : List α) (n : ℕ) (d : α) (h : n < l.length) :
    l.set n (l.getD n d) = l := by
  rw [List.getD_eq_getElem l d h]
  induction l generalizing n with
  | nil => simp at h
  | cons a t ih =>
      cases n with
      | zero => simp
      | succ m =>
          have hm : m < t.length := by simpa using h
          simpa using ih m hm

theorem perm_getD_cons_set {α : Type} (d : α) :
    ∀ (t : List α) (k : ℕ) (x : α), k < t.length → (t.getD k d :: t.set k x).Perm (x :: t) := by
  intro t
  induction t with
  | nil => intro k x h; simp at h
  | cons b s ih =>
      intro k x h
      cases k with
      | zero => simpa using List.Perm.swap x b s
      | succ m =>
          have hm : m < s.length := by simpa using h
          show (s.getD m d :: b :: s.set m x).Perm (x :: b :: s)
          refine (List.Perm.swap b (s.getD m d) (s.set m x)).trans ?_
          refine (List.Perm.cons b (ih m x hm)).trans ?_
          exact List.Perm.swap x b s

theorem perm_cons_set_swap {α : Type} :
    ∀ (t : List α) (k : ℕ) (a x : α), k < t.length → (x :: t.set k a).Perm (a :: t.set k x) := by
  intro t
  induction t with
  | nil => intro k a x h; simp at h
  | cons b s ih =>
      intro k a x h
      cases k with
      | zero => simpa using List.Perm.swap a x s
      | succ m =>
          have hm : m < s.length := by simpa using h
          show (x :: b :: s.set m a).Perm (a :: b :: s.set m x)
          refine (List.Perm.swap b x (s.set m a)).trans ?_
          refine (List.Perm.cons b (ih m a x hm)).trans ?_
          exact List.Perm.swap a b (s.set m x)

theorem perm_set_set {α : Type} (d : α) :
    ∀ (l : List α) (i j : ℕ) (x : α), i < l.length → j < l.length → i ≠ j →
      ((l.set i (l.getD j d)).set j x).Perm (l.set i x) := by
  intro l
  induction l with
  | nil => intro i j x hi _ _; simp at hi
  | cons a t ih =>
      intro i j x hi hj hij
      cases i with
      | zero =>
          cases j with
          | zero => exact absurd rfl hij
          | succ m =>
              have hm : m < t.length := by simpa using hj
              show (t.getD m d :: t.set m x).Perm (x :: t)
              exact perm_getD_cons_set d t m x hm
      | succ k =>
          cases j with
          | zero =>
              have hk : k < t.length := by simpa using hi
              show (x :: t.set k a).Perm (a :: t.set k x)
              exact perm_cons_set_swap t k a x hk
          | succ m =>
              have hk : k < t.length := by simpa using hi
              have hm : m < t.length := by simpa using hj
              have hkm : k ≠ m := fun hkm' => hij (by omega)
              show (a :: (t.set k (t.getD m d)).set m x).Perm (a :: t.set k x)
              exact List.Perm.cons a (ih k m x hk hm hkm)

theorem siftdownAux_perm (startpos : ℕ) (newitem : FrontierEntry) :
    ∀ (fuel : ℕ) (heap : List FrontierEntry) (pos : ℕ), pos < heap.length →
      (siftdownAux startpos newitem fuel heap pos).Perm (heap.set pos newitem) := by
  intro fuel
  induction fuel with
  | zero => intro heap pos _; exact List.Perm.refl _
  | succ fuel ih =>
      intro heap pos hpos
      unfold siftdownAux
      by_cases hgt : startpos < pos
      · rw [if_pos hgt]
        by_cases hlt : entryLT newitem (heap.getD ((pos - 1) / 2) defaultEntry) = true
        · rw [if_pos hlt]
          have hpp : (pos - 1) / 2 < pos := by
            have h1 : 1 ≤ pos := by omega
            calc (pos - 1) / 2 ≤ pos - 1 := Nat.div_le_self _ _
              _ < pos := by omega
          have hpl : (pos - 1) / 2 < (heap.set pos (heap.getD ((pos - 1) / 2) defaultEntry)).length := by
            simpa using lt_trans hpp hpos
          refine (ih _ _ hpl).trans ?_
          exact perm_set_set defaultEntry heap pos ((pos - 1) / 2) newitem hpos (lt_trans hpp hpos) (by omega)
        · rw [if_neg hlt]
      · rw [if_neg hgt]

theorem siftdown_perm (startpos : ℕ) (newitem : FrontierEntry)
    (heap : List FrontierEntry) (pos : ℕ) (hpos : pos < heap.length) :
    (siftdown startpos newitem heap pos).Perm (heap.set pos newitem) :=
  siftdownAux_perm startpos newitem (pos + 1) heap pos hpos

theorem pickChild_lt (heap : List FrontierEntry) (endpos childpos : ℕ) (h : childpos < endpos) :
    pickChild heap endpos childpos < endpos := by
  unfold pickChild
  split
  · next hcond =>
      rcases (Bool.and_eq_true ..).mp hcond with ⟨h1, _⟩
      exact of_decide_eq_true h1
  · exact h

theorem pickChild_ge (heap : List FrontierEntry) (endpos childpos : ℕ) :
    childpos ≤ pickChild heap endpos childpos := by
  unfold pickChild
  split <;> omega

theorem set_append_singleton {α : Type} : ∀ (l : List α) (a b : α), (l ++ [a]).set l.length b = l ++ [b] := by
  intro l
  induction l with
  | nil => simp
  | cons x t ih => intro a b; simp [ih]

theorem siftupLoopAux_perm (endpos startpos : ℕ) (newitem : FrontierEntry) :
    ∀ (fuel : ℕ) (heap : List FrontierEntry) (pos : ℕ), endpos ≤ heap.length → pos < heap.length →
      (siftupLoopAux endpos startpos newitem fuel heap pos).Perm (heap.set pos newitem) := by
  intro fuel
  induction fuel with
  | zero => intro heap pos _ hpos; exact siftdown_perm startpos newitem heap pos hpos
  | succ fuel ih =>
      intro heap pos hend hpos
      unfold siftupLoopAux
      by_cases hclt : 2 * pos + 1 < endpos
      · rw [if_pos hclt]
        have hce : pickChild heap endpos (2 * pos + 1) < endpos := pickChild_lt heap endpos _ hclt
        have hcl : pickChild heap endpos (2 * pos + 1) < heap.length := lt_of_lt_of_le hce hend
        have hstep := ih (heap.set pos (heap.getD (pickChild heap endpos (2 * pos + 1)) defaultEntry))
          (pickChild heap endpos (2 * pos + 1)) (by simpa using hend) (by simpa using hcl)
        refine hstep.trans ?_
        have hgec : 2 * pos + 1 ≤ pickChild heap endpos (2 * pos + 1) := pickChild_ge heap endpos _
        exact perm_set_set defaultEntry heap pos (pickChild heap endpos (2 * pos + 1)) newitem hpos hcl (by omega)
      · rw [if_neg hclt]
        exact siftdown_perm startpos newitem heap pos hpos

theorem siftup_perm (heap : List FrontierEntry) (pos : ℕ) (h : pos < heap.length) :
    (siftup heap pos).Perm heap := by
  unfold siftup
  have hp := siftupLoopAux_perm heap.length pos (heap.getD pos defaultEntry) heap.length heap pos le_rfl h
  rwa [set_getD_self heap pos defaultEntry h] at hp


theorem heappush_perm (heap : List FrontierEntry) (item : FrontierEntry) :
    (heappush heap item).Perm (item :: heap) := by
  unfold heappush
  have hlen : heap.length < (heap ++ [item]).length := by simp
  have h1 := siftdown_perm 0 item (heap ++ [item]) heap.length hlen
  have h2 : (heap ++ [item]).set heap.length item = heap ++ [item] := set_append_singleton heap item item
  rw [h2] at h1
  exact h1.trans (List.perm_append_singleton item heap)

theorem heappop_perm (heap : List FrontierEntry) (e : FrontierEntry) (rest : List FrontierEntry)
    (h : heappop heap = some (e, rest)) : heap.Perm (e :: rest) := by
  unfold heappop at h
  split at h
  · exact absurd h (by simp)
  · next lastelt hlast =>
      have hne : heap ≠ [] := by
        intro hnil; rw [hnil] at hlast; simp at hlast
      have hsplit : heap = heap.dropLast ++ [lastelt] := by
        conv_lhs => rw [← List.dropLast_append_getLast hne]
        rw [List.getLast?_eq_getLast heap hne, Option.some_inj] at hlast
        rw [hlast]
      by_cases hde : heap.dropLast.isEmpty
      · rw [if_pos hde] at h
        rw [Option.some_inj] at h
        obtain ⟨he, hrest⟩ := Prod.mk.injEq .. |>.mp h
        subst he; subst hrest
        rw [hsplit, List.isEmpty_iff.mp hde]
        rfl
      · rw [if_neg hde] at h
        rw [Option.some_inj] at h
        obtain ⟨he, hrest⟩ := Prod.mk.injEq .. |>.mp h
        obtain ⟨a, t, hat⟩ := List.exists_cons_of_ne_nil (List.isEmpty_iff.not.mp hde)
        have hperm1 : rest.Perm (lastelt :: t) := by
          rw [← hrest]
          have hlen : (0 : ℕ) < (heap.dropLast.set 0 lastelt).length := by
            rw [hat]; simp
          refine (siftup_perm _ 0 hlen).trans ?_
          rw [hat]
          rfl
        have hperm3 : heap.Perm (a :: lastelt :: t) := by
          calc heap = heap.dropLast ++ [lastelt] := hsplit
            _ = (a :: t) ++ [lastelt] := by rw [hat]
            _ = a :: (t ++ [lastelt]) := rfl
          refine List.Perm.cons a ?_
          exact List.perm_append_singleton lastelt t
        have hea : e = a := by rw [← he, hat]; rfl
        rw [hea]
        exact hperm3.trans (List.Perm.cons a (hperm1.symm))

theorem foldl_siftup_perm :
    ∀ (idxs : List ℕ) (heap : List FrontierEntry), (∀ i ∈ idxs, i < heap.length) →
      (idxs.foldl (fun h i => siftup h i) heap).Perm heap := by
  intro idxs
  induction idxs with
  | nil => intro heap _; rfl
  | cons i rest ih =>
      intro heap hbound
      have hi : i < heap.length := hbound i (by simp)
      have hperm : (siftup heap i).Perm heap := siftup_perm heap i hi
      have hrest : ∀ j ∈ rest, j < (siftup heap i).length := by
        intro j hj
        rw [hperm.length_eq]
        exact hbound j (List.mem_cons_of_mem i hj)
      exact (ih (siftup heap i) hrest).trans hperm

theorem heapify_perm (heap : List FrontierEntry) : (heapify heap).Perm heap := by
  unfold heapify
  apply foldl_siftup_perm
  intro i hi
  rw [List.mem_reverse, List.mem_range] at hi
  omega

theorem mem_truncate_queue (cap : ℕ) (q : List FrontierEntry) (x : FrontierEntry)
    (h : x ∈ truncate_queue cap q) : x ∈ q := by
  unfold truncate_queue at h
  split at h
  · exact List.take_subset _ _ ((heapify_perm _).mem_iff.mp h)
  · exact h

theorem mem_heappush (heap : List FrontierEntry) (item x : FrontierEntry)
    (h : x ∈ heappush heap item) : x = item ∨ x ∈ heap := by
  have := (heappush_perm heap item).mem_iff.mp h
  simpa using this

theorem heappop_mem (heap : List FrontierEntry) (e : FrontierEntry) (rest : List FrontierEntry)
    (h : heappop heap = some (e, rest)) : e ∈ heap ∧ ∀ x ∈ rest, x ∈ heap := by
  have hperm := heappop_perm heap e rest h
  constructor
  · exact hperm.mem_iff.mpr (by simp)
  · intro x hx
    exact hperm.mem_iff.mpr (List.mem_cons_of_mem e hx)

/-!  Combination lemmas: every combination either generator emits respects the
daily capacity, references only the available subjects, and (apart from
strategy 3's complete-a-subject sessions) the minimum session length. -/

theorem rangeList_mem (a b x : ℤ) (h : x ∈ rangeList a b) : a ≤ x ∧ x < b := by
  unfold rangeList at h
  rcases List.mem_map.mp h with ⟨i, hi, hx⟩
  rw [List.mem_range] at hi
  subst hx
  simp only [Int.ofNat_eq_natCast]
  omega

theorem sum_hours_append (c : List (ℤ × ℤ)) (s : ℤ × ℤ) :
    sum_hours (c ++ [s]) = sum_hours c + s.2 := by
  simp [sum_hours]

theorem backtrack_sum (problem : SchedulingProblem) :
    ∀ (subjects : List StudyTask) (combo : List (ℤ × ℤ)) (budget : ℤ) (out : List (ℤ × ℤ)),
      out ∈ backtrackCombos problem subjects combo budget →
      sum_hours out ≤ sum_hours combo + budget ∨ out = combo := by
  intro subjects
  induction subjects with
  | nil =>
      intro combo budget out h
      unfold backtrackCombos at h
      split at h
      · simp at h
      · right; simpa using h
  | cons subject rest ih =>
      intro combo budget out h
      unfold backtrackCombos at h
      rcases List.mem_append.mp h with h1 | h2
      · exact ih combo budget out h1
      · rcases List.mem_flatMap.mp h2 with ⟨hours, hhr, hout⟩
        have hrange := rangeList_mem _ _ _ hhr
        split at hout
        · next hcond =>
            rcases ih _ _ out hout with hs | he
            · rw [sum_hours_append] at hs
              left; omega
            · subst he
              rw [sum_hours_append]
              left; omega
        · simp at hout

theorem backtrack_floor (problem : SchedulingProblem) :
    ∀ (subjects : List StudyTask) (combo : List (ℤ × ℤ)) (budget : ℤ) (out : List (ℤ × ℤ)) (s : ℤ × ℤ),
      out ∈ backtrackCombos problem subjects combo budget → s ∈ out →
      s ∈ combo ∨ (problem.min_session_hours ≤ s.2 ∧ ∃ t ∈ subjects, t.subject_id = s.1) := by
  intro subjects
  induction subjects with
  | nil =>
      intro combo budget out s h hs
      unfold backtrackCombos at h
      split at h
      · simp at h
      · left
        have : out = combo := by simpa using h
        rwa [this] at hs
  | cons subject rest ih =>
      intro combo budget out s h hs
      unfold backtrackCombos at h
      rcases List.mem_append.mp h with h1 | h2
      · rcases ih combo budget out s h1 hs with hc | ⟨hfloor, t, ht, hid⟩
        · exact Or.inl hc
        · exact Or.inr ⟨hfloor, t, List.mem_cons_of_mem subject ht, hid⟩
      · rcases List.mem_flatMap.mp h2 with ⟨hours, hhr, hout⟩
        have hrange := rangeList_mem _ _ _ hhr
        split at hout
        · rcases ih _ _ out s hout hs with hc | ⟨hfloor, t, ht, hid⟩
          · rcases List.mem_append.mp hc with hc1 | hc2
            · exact Or.inl hc1
            · have hse : s = (subject.subject_id, hours) := by simpa using hc2
              subst hse
              exact Or.inr ⟨hrange.1, subject, List.mem_cons_self subject rest, rfl⟩
          · exact Or.inr ⟨hfloor, t, List.mem_cons_of_mem subject ht, hid⟩
        · simp at hout

theorem dedup_subset :
    ∀ (l : List (List (ℤ × ℤ))) (seen : List (List (ℤ × ℤ))) (out : List (ℤ × ℤ)),
      out ∈ dedupCombos seen l → out ∈ l := by
  intro l
  induction l with
  | nil => intro seen out h; simp [dedupCombos] at h
  | cons c rest ih =>
      intro seen out h
      unfold dedupCombos at h
      split at h
      · exact List.mem_cons_of_mem c (ih _ out h)
      · rcases List.mem_cons.mp h with he | hm
        · exact he ▸ List.mem_cons_self c rest
        · exact List.mem_cons_of_mem c (ih _ out hm)

theorem sort_combinations_mem (problem : SchedulingProblem) (combos : List (List (ℤ × ℤ)))
    (out : List (ℤ × ℤ)) (h : out ∈ sort_combinations problem combos) : out ∈ combos :=
  (List.perm_insertionSort _ combos).mem_iff.mp h

theorem sort_subjects_mem (day : ℤ) (subjects : List StudyTask) (t : StudyTask)
    (h : t ∈ sort_subjects day subjects) : t ∈ subjects :=
  (List.perm_insertionSort _ subjects).mem_iff.mp h

theorem smart_strategy1_spec (problem : SchedulingProblem) (sorted : List StudyTask)
    (combo : List (ℤ × ℤ)) (h : combo ∈ smart_strategy1 problem sorted) :
    sum_hours combo ≤ problem.max_daily_hours ∧ combo ≠ [] ∧
      ∀ s ∈ combo, ∃ t ∈ sorted, t.subject_id = s.1 ∧
        (problem.min_session_hours ≤ s.2 ∨ s.2 = t.remaining_hours) := by
  unfold smart_strategy1 at h
  match sorted, h with
  | urgent :: rest, h =>
      rcases List.mem_map.mp h with ⟨hours, hhr, hc⟩
      have hrange := rangeList_mem _ _ _ hhr
      subst hc
      refine ⟨by simp [sum_hours]; omega, by simp, ?_⟩
      intro s hs
      have hse : s = (urgent.subject_id, hours) := by simpa using hs
      subst hse
      exact ⟨urgent, List.mem_cons_self _ _, rfl, Or.inl hrange.1⟩

theorem smart_strategy2_spec (problem : SchedulingProblem) (sorted : List StudyTask)
    (combo : List (ℤ × ℤ)) (h : combo ∈ smart_strategy2 problem sorted) :
    sum_hours combo ≤ problem.max_daily_hours ∧ combo ≠ [] ∧
      ∀ s ∈ combo, ∃ t ∈ sorted, t.subject_id = s.1 ∧
        (problem.min_session_hours ≤ s.2 ∨ s.2 = t.remaining_hours) := by
  unfold smart_strategy2 at h
  match sorted, h with
  | [], h => simp at h
  | [s1], h => simp at h
  | s1 :: s2 :: rest, h =>
      rcases List.mem_flatMap.mp h with ⟨h1, hh1, hin⟩
      have hr1 := rangeList_mem _ _ _ hh1
      split at hin
      · next hcond =>
          rcases List.mem_map.mp hin with ⟨h2, hh2, hc⟩
          have hr2 := rangeList_mem _ _ _ hh2
          subst hc
          refine ⟨by simp [sum_hours]; omega, by simp, ?_⟩
          intro s hs
          rcases List.mem_cons.mp hs with hse | hs2
          · subst hse
            exact ⟨s1, List.mem_cons_self _ _, rfl, Or.inl hr1.1⟩
          · have hse : s = (s2.subject_id, h2) := by simpa using hs2
            subst hse
            exact ⟨s2, List.mem_cons_of_mem s1 (List.mem_cons_self _ _), rfl, Or.inl hr2.1⟩
      · simp at hin

theorem smart_strategy3_spec (problem : SchedulingProblem) (sorted : List StudyTask)
    (combo : List (ℤ × ℤ)) (h : combo ∈ smart_strategy3 problem sorted) :
    sum_hours combo ≤ problem.max_daily_hours ∧ combo ≠ [] ∧
      ∀ s ∈ combo, ∃ t ∈ sorted, t.subject_id = s.1 ∧
        (problem.min_session_hours ≤ s.2 ∨ s.2 = t.remaining_hours) := by
  unfold smart_strategy3 at h
  rcases List.mem_map.mp h with ⟨subj, hsub, hc⟩
  rcases List.mem_filter.mp hsub with ⟨hmem, hcap⟩
  have hcap' : subj.remaining_hours ≤ problem.max_daily_hours := of_decide_eq_true hcap
  subst hc
  refine ⟨by simp [sum_hours]; omega, by simp, ?_⟩
  intro s hs
  have hse : s = (subj.subject_id, subj.remaining_hours) := by simpa using hs
  subst hse
  exact ⟨subj, hmem, rfl, Or.inr rfl⟩

theorem generate_smart_spec (problem : SchedulingProblem) (subjects : List StudyTask) (day : ℤ)
    (combo : List (ℤ × ℤ)) (h : combo ∈ generate_smart_combinations problem subjects day) :
    sum_hours combo ≤ problem.max_daily_hours ∧ combo ≠ [] ∧
      ∀ s ∈ combo, ∃ t ∈ subjects, t.subject_id = s.1 ∧
        (problem.min_session_hours ≤ s.2 ∨ s.2 = t.remaining_hours) := by
  unfold generate_smart_combinations at h
  have h1 : combo ∈ dedupCombos []
      (smart_strategy1 problem (sort_subjects day subjects) ++
        smart_strategy2 problem (sort_subjects day subjects) ++
        smart_strategy3 problem (sort_subjects day subjects)) :=
    sort_combinations_mem problem _ combo (List.take_subset _ _ h)
  have h2 := dedup_subset _ [] combo h1
  have main : sum_hours combo ≤ problem.max_daily_hours ∧ combo ≠ [] ∧
      ∀ s ∈ combo, ∃ t ∈ sort_subjects day subjects, t.subject_id = s.1 ∧
        (problem.min_session_hours ≤ s.2 ∨ s.2 = t.remaining_hours) := by
    rcases List.mem_append.mp h2 with h12 | h3
    · rcases List.mem_append.mp h12 with ha | hb
      · exact smart_strategy1_spec problem _ combo ha
      · exact smart_strategy2_spec problem _ combo hb
    · exact smart_strategy3_spec problem _ combo h3
  refine ⟨main.1, main.2.1, ?_⟩
  intro s hs
  rcases main.2.2 s hs with ⟨t, ht, hid, hfl⟩
  exact ⟨t, sort_subjects_mem day subjects t ht, hid, hfl⟩

theorem selected_combinations_spec (problem : SchedulingProblem) (avail : List StudyTask) (day : ℤ)
    (combo : List (ℤ × ℤ)) (h : combo ∈ selected_combinations problem avail day) :
    sum_hours combo ≤ problem.max_daily_hours ∧ combo ≠ [] ∧
      ∀ s ∈ combo, ∃ t ∈ avail, t.subject_id = s.1 ∧
        (problem.min_session_hours ≤ s.2 ∨ s.2 = t.remaining_hours) := by
  unfold selected_combinations at h
  split at h
  · exact generate_smart_spec problem avail day combo h
  · have h1 : combo ∈ (generate_daily_combinations problem avail problem.max_daily_hours).filter
        (fun c => ! c.isEmpty) :=
      sort_combinations_mem problem _ combo (List.take_subset _ _ h)
    rcases List.mem_filter.mp h1 with ⟨hmem, hne⟩
    have hne' : combo ≠ [] := by
      intro hc; rw [hc] at hne; simp at hne
    have hsum : sum_hours combo ≤ problem.max_daily_hours := by
      rcases backtrack_sum problem avail [] problem.max_daily_hours combo hmem with hs | he
      · simpa [sum_hours] using hs
      · exact absurd he hne'
    refine ⟨hsum, hne', ?_⟩
    intro s hs
    rcases backtrack_floor problem avail [] problem.max_daily_hours combo s hmem hs with hc | ⟨hfloor, t, ht, hid⟩
    · simp at hc
    · exact ⟨t, ht, hid, Or.inl hfloor⟩

/-!  Structure lemmas for child creation and generation. -/

theorem skip_child_assignments (problem : SchedulingProblem) (n : ScheduleNode) :
    (create_skip_day_child problem n).assignments = n.assignments := rfl

theorem skip_child_tasks (problem : SchedulingProblem) (n : ScheduleNode) :
    (create_skip_day_child problem n).remaining_tasks = n.remaining_tasks := rfl

theorem skip_child_day (problem : SchedulingProblem) (n : ScheduleNode) :
    (create_skip_day_child problem n).current_day = n.current_day + 1 := rfl

theorem child_node_assignments (problem : SchedulingProblem) (n : ScheduleNode) (day : ℤ) (combo : List (ℤ × ℤ)) :
    (create_child_node problem n day combo).assignments =
      if combo.isEmpty then n.assignments else dictInsert n.assignments day combo := rfl

theorem child_node_tasks (problem : SchedulingProblem) (n : ScheduleNode) (day : ℤ) (combo : List (ℤ × ℤ)) :
    (create_child_node problem n day combo).remaining_tasks =
      combo.foldl (fun ts s => subtract_hours ts s.1 s.2) n.remaining_tasks := rfl

theorem child_node_day (problem : SchedulingProblem) (n : ScheduleNode) (day : ℤ) (combo : List (ℤ × ℤ)) :
    (create_child_node problem n day combo).current_day = day + 1 := rfl

theorem check_feasibility_congr (problem : SchedulingProblem) (n1 n2 : ScheduleNode)
    (hd : n1.current_day = n2.current_day) (ht : n1.remaining_tasks = n2.remaining_tasks) :
    check_feasibility problem n1 = check_feasibility problem n2 := by
  unfold check_feasibility
  rw [hd, ht]

theorem skip_child_feasible (problem : SchedulingProblem) (n : ScheduleNode) :
    (create_skip_day_child problem n).is_feasible =
      check_feasibility problem (create_skip_day_child problem n) := by
  exact check_feasibility_congr problem _ _ rfl rfl

theorem child_node_feasible (problem : SchedulingProblem) (n : ScheduleNode) (day : ℤ) (combo : List (ℤ × ℤ)) :
    (create_child_node problem n day combo).is_feasible =
      check_feasibility problem (create_child_node problem n day combo) := by
  exact check_feasibility_congr problem _ _ rfl rfl

theorem dictInsert_mem (m : List (ℤ × List (ℤ × ℤ))) (k : ℤ) (v : List (ℤ × ℤ))
    (e : ℤ × List (ℤ × ℤ)) (h : e ∈ dictInsert m k v) : e ∈ m ∨ e = (k, v) := by
  unfold dictInsert at h
  split at h
  · rcases List.mem_map.mp h with ⟨x, hx, he⟩
    by_cases hk : x.1 = k
    · rw [if_pos hk] at he
      exact Or.inr he.symm
    · rw [if_neg hk] at he
      exact Or.inl (he ▸ hx)
  · rcases List.mem_append.mp h with h1 | h2
    · exact Or.inl h1
    · exact Or.inr (by simpa using h2)

theorem dictInsert_fresh (m : List (ℤ × List (ℤ × ℤ))) (k : ℤ) (v : List (ℤ × ℤ))
    (h : ∀ e ∈ m, e.1 ≠ k) : dictInsert m k v = m ++ [(k, v)] := by
  have hc : m.any (fun e => e.1 == k) = false := by
    rw [List.any_eq_false]
    intro x hx
    simpa using h x hx
  unfold dictInsert
  rw [hc]
  simp

theorem subtract_hours_taskKey : ∀ (ts : List StudyTask) (sid hours : ℤ),
    (subtract_hours ts sid hours).map taskKey = ts.map taskKey := by
  intro ts
  induction ts with
  | nil => intro sid hours; rfl
  | cons t rest ih =>
      intro sid hours
      unfold subtract_hours
      split
      · rfl
      · simp only [List.map_cons]
        rw [ih sid hours]

theorem foldl_subtract_taskKey (combo : List (ℤ × ℤ)) :
    ∀ (ts : List StudyTask),
      (combo.foldl (fun ts s => subtract_hours ts s.1 s.2) ts).map taskKey = ts.map taskKey := by
  induction combo with
  | nil => intro ts; rfl
  | cons s rest ih =>
      intro ts
      simp only [List.foldl_cons]
      rw [ih (subtract_hours ts s.1 s.2), subtract_hours_taskKey]

theorem available_subjects_mem (n : ScheduleNode) (t : StudyTask) (h : t ∈ available_subjects n) :
    t ∈ n.remaining_tasks ∧ 0 < t.remaining_hours := by
  unfold available_subjects at h
  rcases List.mem_filter.mp h with ⟨hmem, hcond⟩
  rcases (Bool.and_eq_true ..).mp hcond with ⟨h1, _⟩
  exact ⟨hmem, of_decide_eq_true h1⟩

theorem check_feasibility_open_deadlines (problem : SchedulingProblem) (n : ScheduleNode)
    (h : check_feasibility problem n = true) : open_deadlines n := by
  unfold check_feasibility at h
  split at h
  · exact absurd h (by simp)
  · intro t ht hrem
    have := List.all_eq_true.mp h t ht
    rw [if_pos hrem] at this
    split at this
    · exact absurd this (by simp)
    · next hdud => omega

theorem generate_children_cases (problem : SchedulingProblem) (n c : ScheduleNode)
    (h : c ∈ generate_children problem n) :
    c = create_skip_day_child problem n ∨
      ∃ combo ∈ selected_combinations problem (available_subjects n) n.current_day,
        c = create_child_node problem n n.current_day combo ∧ c.is_feasible = true := by
  unfold generate_children at h
  split at h
  · simp at h
  · split at h
    · exact Or.inl (by simpa using h)
    · rcases List.mem_cons.mp h with he | hm
      · exact Or.inl he
      · rcases List.mem_filter.mp hm with ⟨hmap, hfeas⟩
        rcases List.mem_map.mp hmap with ⟨combo, hcombo, hc⟩
        exact Or.inr ⟨combo, hcombo, hc.symm, hfeas⟩

theorem generate_children_day (problem : SchedulingProblem) (n c : ScheduleNode)
    (h : c ∈ generate_children problem n) : c.current_day = n.current_day + 1 := by
  rcases generate_children_cases problem n c h with he | ⟨combo, _, he, _⟩
  · rw [he]; rfl
  · rw [he]; rfl

/-!  Invariant preservation: a node predicate that holds for the root and is
preserved by feasible child generation (and untouched by re-scoring) holds for
every frontier node and for whatever `solve` returns. -/

theorem capacityOK_root (problem : SchedulingProblem) : capacityOK problem (rootNode problem) := by
  intro da hda
  simp [rootNode, setUpperBound] at hda

theorem capacityOK_children (problem : SchedulingProblem) (n c : ScheduleNode)
    (hP : capacityOK problem n) (hc : c ∈ generate_children problem n) : capacityOK problem c := by
  rcases generate_children_cases _ _ _ hc with he | ⟨combo, hcombo, he, _⟩
  · subst he
    intro da hda
    rw [skip_child_assignments] at hda
    exact hP da hda
  · subst he
    intro da hda
    rw [child_node_assignments] at hda
    rcases selected_combinations_spec _ _ _ _ hcombo with ⟨hsum, hne, _⟩
    rw [if_neg (by simpa using hne)] at hda
    rcases dictInsert_mem _ _ _ _ hda with hm | heq
    · exact hP da hm
    · rw [heq]
      exact hsum

theorem push_children_P (P : ScheduleNode → Prop) :
    ∀ (children : List ScheduleNode) (st : BBState),
      (∀ c ∈ children, c.is_feasible = true → P c) → NodesP P st →
      NodesP P (push_children st children) := by
  intro children
  induction children with
  | nil => intro st _ hst; exact hst
  | cons child rest ih =>
      intro st hc hst
      have hstep : NodesP P (if child.is_feasible && bestLT st.best_score child.upper_bound then
          { st with queue := heappush st.queue (-child.upper_bound, st.node_counter, child),
                    node_counter := st.node_counter + 1 }
        else { st with nodes_pruned := st.nodes_pruned + 1 }) := by
        split
        · next hcond =>
            rcases (Bool.and_eq_true ..).mp hcond with ⟨hf, _⟩
            constructor
            · intro e he
              rcases mem_heappush _ _ _ he with heq | hm
              · rw [heq]
                exact hc child (List.mem_cons_self _ _) hf
              · exact hst.1 e hm
            · exact hst.2
        · exact ⟨hst.1, hst.2⟩
      exact ih _ (fun c hcm hcf => hc c (List.mem_cons_of_mem _ hcm) hcf) hstep

theorem solveLoop_P (problem : SchedulingProblem) (P : ScheduleNode → Prop)
    (hgen : ∀ n c, P n → c ∈ generate_children problem n → c.is_feasible = true → P c)
    (hscore : ∀ n, P n → P (setObjectiveScore problem n)) :
    ∀ (fuel : ℕ) (st : BBState), NodesP P st → NodesP P (solveLoop problem fuel st) := by
  intro fuel
  induction fuel with
  | zero => intro st hst; exact hst
  | succ fuel ih =>
      intro st hst
      rw [solveLoop]
      cases hpop : heappop st.queue with
      | none => exact hst
      | some pair =>
          obtain ⟨e, q'⟩ := pair
          rcases heappop_mem _ _ _ hpop with ⟨hemem, hq'⟩
          have hP_e : P e.2.2 := hst.1 e hemem
          have hst1 : NodesP P { st with queue := q', nodes_explored := st.nodes_explored + 1 } :=
            ⟨fun x hx => hst.1 x (hq' x hx), hst.2⟩
          dsimp only
          split
          · exact ih _ ⟨hst1.1, hst1.2⟩
          · split
            · split
              · refine ih _ ⟨hst1.1, ?_⟩
                intro s hs
                rw [Option.some_inj] at hs
                rw [← hs]
                exact hscore _ hP_e
              · exact ih _ hst1
            · refine ih _ ?_
              apply push_children_P P _ _
              · intro c hcm hcf
                exact hgen e.2.2 c hP_e hcm hcf
              · refine ⟨?_, hst1.2⟩
                intro x hx
                exact hst1.1 x (mem_truncate_queue _ _ _ hx)

theorem solveBB_P (problem : SchedulingProblem) (P : ScheduleNode → Prop)
    (hroot : P (rootNode problem))
    (hgen : ∀ n c, P n → c ∈ generate_children problem n → c.is_feasible = true → P c)
    (hscore : ∀ n, P n → P (setObjectiveScore problem n)) :
    ∀ (fuel : ℕ) (sol : ScheduleNode), solveBB problem fuel = some sol → P sol := by
  intro fuel sol h
  unfold solveBB solveState at h
  have hinit : NodesP P (⟨[(-(rootNode problem).upper_bound, 0, rootNode problem)],
      1, none, none, 0, 0⟩ : BBState) := by
    constructor
    · intro e he
      have he' : e = (-(rootNode problem).upper_bound, 0, rootNode problem) := by simpa using he
      rw [he']
      exact hroot
    · intro s hs
      simp at hs
  exact (solveLoop_P problem P hgen hscore fuel _ hinit).2 sol h

/-!  Deadline-invariant machinery. -/

theorem pair_key_unique : ∀ (m : List (ℤ × ℤ)), (m.map Prod.fst).Nodup →
    ∀ x ∈ m, ∀ y ∈ m, x.1 = y.1 → x = y := by
  intro m
  induction m with
  | nil => intro _ x hx; simp at hx
  | cons a t ih =>
      intro hnd x hx y hy hxy
      rw [List.map_cons, List.nodup_cons] at hnd
      rcases List.mem_cons.mp hx with hxa | hxt
      · rcases List.mem_cons.mp hy with hya | hyt
        · rw [hxa, hya]
        · exfalso
          apply hnd.1
          rw [hxa] at hxy
          rw [hxy]
          exact List.mem_map_of_mem Prod.fst hyt
      · rcases List.mem_cons.mp hy with hya | hyt
        · exfalso
          apply hnd.1
          rw [hya] at hxy
          rw [← hxy]
          exact List.mem_map_of_mem Prod.fst hxt
        · exact ih hnd.2 x hxt y hyt hxy

theorem deadline_agree (problem : SchedulingProblem) (n : ScheduleNode)
    (hsc : snapshot_consistent problem n)
    (hnd : (problem.tasks.map (fun t => t.subject_id)).Nodup)
    (a : StudyTask) (ha : a ∈ n.remaining_tasks) (b : StudyTask) (hb : b ∈ problem.tasks)
    (hid : a.subject_id = b.subject_id) : a.deadline = b.deadline := by
  have hka : taskKey a ∈ problem.tasks.map taskKey := by
    rw [← hsc]
    exact List.mem_map_of_mem taskKey ha
  have hkb : taskKey b ∈ problem.tasks.map taskKey := List.mem_map_of_mem taskKey hb
  have hnd' : ((problem.tasks.map taskKey).map Prod.fst).Nodup := by
    rw [List.map_map]
    exact hnd
  have hk := pair_key_unique _ hnd' (taskKey a) hka (taskKey b) hkb hid
  exact congrArg Prod.snd hk

theorem deadlineInv_root (problem : SchedulingProblem)
    (hdl : ∀ t ∈ problem.tasks, 1 ≤ t.deadline) :
    deadlineOK problem (rootNode problem) ∧ snapshot_consistent problem (rootNode problem) ∧
      open_deadlines (rootNode problem) := by
  refine ⟨?_, rfl, ?_⟩
  · intro da hda
    simp [rootNode, setUpperBound] at hda
  · intro t ht _
    exact hdl t ht

theorem deadlineInv_children (problem : SchedulingProblem)
    (hnd : (problem.tasks.map (fun t => t.subject_id)).Nodup) (n c : ScheduleNode)
    (hP : deadlineOK problem n ∧ snapshot_consistent problem n ∧ open_deadlines n)
    (hc : c ∈ generate_children problem n) (hcf : c.is_feasible = true) :
    deadlineOK problem c ∧ snapshot_consistent problem c ∧ open_deadlines c := by
  rcases generate_children_cases _ _ _ hc with he | ⟨combo, hcombo, he, _⟩
  · refine ⟨?_, ?_, ?_⟩
    · intro da hda s hs t ht hid
      rw [he, skip_child_assignments] at hda
      exact hP.1 da hda s hs t ht hid
    · unfold snapshot_consistent
      rw [he, skip_child_tasks]
      exact hP.2.1
    · apply check_feasibility_open_deadlines problem c
      rw [he] at hcf ⊢
      rw [← skip_child_feasible]
      exact hcf
  · refine ⟨?_, ?_, ?_⟩
    · intro da hda s hs t ht hid
      rw [he, child_node_assignments] at hda
      rcases selected_combinations_spec _ _ _ _ hcombo with ⟨_, hne, hsess⟩
      rw [if_neg (by simpa using hne)] at hda
      rcases dictInsert_mem _ _ _ _ hda with hm | heq
      · exact hP.1 da hm s hs t ht hid
      · rw [heq] at hs ⊢
        rcases hsess s hs with ⟨ts, hts, htsid, _⟩
        rcases available_subjects_mem _ _ hts with ⟨htsm, htsrem⟩
        have hday : n.current_day ≤ ts.deadline := hP.2.2 ts htsm htsrem
        have hde : ts.deadline = t.deadline :=
          deadline_agree problem n hP.2.1 hnd ts htsm t ht (by rw [htsid, hid])
      -- the new entry's key is the parent's current day
        simpa using hde ▸ hday
    · unfold snapshot_consistent
      rw [he, child_node_tasks, foldl_subtract_taskKey]
      exact hP.2.1
    · apply check_feasibility_open_deadlines problem c
      rw [he] at hcf ⊢
      rw [← child_node_feasible]
      exact hcf

/-- C8 (amended): provided every task's deadline is at least day 1 and subject
ids are pairwise distinct, no schedule returned by solve commits a session to
a task on a day strictly after that task's deadline. -/
theorem C8_solve_deadline (problem : SchedulingProblem) (fuel : ℕ) (sol : ScheduleNode)
    (hdl : ∀ t ∈ problem.tasks, 1 ≤ t.deadline)
    (hnd : (problem.tasks.map (fun t => t.subject_id)).Nodup)
    (h : solveBB problem fuel = some sol) :
    ∀ da ∈ sol.assignments, ∀ s ∈ da.2, ∀ t ∈ problem.tasks, t.subject_id = s.1 →
      da.1 ≤ t.deadline := by
  have := solveBB_P problem
    (fun n => deadlineOK problem n ∧ snapshot_consistent problem n ∧ open_deadlines n)
    (deadlineInv_root problem hdl)
    (fun n c hP hc hcf => deadlineInv_children problem hnd n c hP hc hcf)
    (fun n hP => hP) fuel sol h
  intro da hda s hs t ht hid
  exact this.1 da hda s hs t ht hid

/-- Witness for the amended C8 on the scenario problem. -/
theorem C8_solve_deadline_witness :
    (solveBB scenario_problem 20).isSome = true ∧
      (∀ sol, solveBB scenario_problem 20 = some sol →
        ∀ da ∈ sol.assignments, ∀ s ∈ da.2, ∀ t ∈ scenario_problem.tasks,
          t.subject_id = s.1 → da.1 ≤ t.deadline) :=
  ⟨by decide, fun sol h => C8_solve_deadline scenario_problem 20 sol
    (by decide) (by decide) h⟩

/-- C8 (counterexample): on a task whose deadline day 0 precedes the horizon,
solve returns a schedule studying the task on day 1 > deadline. -/
theorem C8_counterexample :
    (solveBB cex8_problem 10).isSome = true ∧
      ∃ da ∈ ((solveBB cex8_problem 10).getD defaultNode).assignments, ∃ s ∈ da.2,
        ∃ t ∈ cex8_problem.tasks, t.subject_id = s.1 ∧ t.deadline < da.1 := by
  constructor
  · decide
  · decide

/-!  Day-uniqueness machinery. -/

theorem reachable_keys (problem : SchedulingProblem) :
    ∀ (n : ScheduleNode), ReachableNode problem n → ∀ da ∈ n.assignments, da.1 < n.current_day := by
  intro n h
  induction h with
  | root =>
      intro da hda
      simp [rootNode, setUpperBound] at hda
  | @step m c hr hc ih =>
      intro da hda
      have hday := generate_children_day _ _ _ hc
      rcases generate_children_cases _ _ _ hc with he | ⟨combo, _, he, _⟩
      · rw [he, skip_child_assignments] at hda
        have := ih da hda
        rw [hday]
        omega
      · rw [he, child_node_assignments] at hda
        by_cases hemp : combo.isEmpty
        · rw [if_pos hemp] at hda
          have := ih da hda
          rw [hday]
          omega
        · rw [if_neg hemp] at hda
          rcases dictInsert_mem _ _ _ _ hda with hm | heq
          · have := ih da hm
            rw [hday]
            omega
          · rw [hday, heq]
            omega

/-- C10: every child's current day is its parent's plus one; a child's
assignments are the parent's either unchanged or extended with exactly one new
entry keyed by the parent's current day (never overwriting an existing entry,
since along any reachable path every recorded day precedes the node's current
day). -/
theorem C10_day_uniqueness (problem : SchedulingProblem) (n : ScheduleNode)
    (hr : ReachableNode problem n) :
    (∀ da ∈ n.assignments, da.1 < n.current_day) ∧
      ∀ c ∈ generate_children problem n,
        c.current_day = n.current_day + 1 ∧
          (c.assignments = n.assignments ∨
            ∃ sessions, c.assignments = n.assignments ++ [(n.current_day, sessions)]) := by
  have hkeys := reachable_keys problem n hr
  refine ⟨hkeys, ?_⟩
  intro c hc
  refine ⟨generate_children_day _ _ _ hc, ?_⟩
  rcases generate_children_cases _ _ _ hc with he | ⟨combo, _, he, _⟩
  · left
    rw [he, skip_child_assignments]
  · rw [he, child_node_assignments]
    by_cases hemp : combo.isEmpty
    · left
      rw [if_pos hemp]
    · right
      refine ⟨combo, ?_⟩
      rw [if_neg hemp]
      apply dictInsert_fresh
      intro e he' hk
      have := hkeys e he'
      omega

/-- Witness for C10 at the scenario problem's root node. -/
theorem C10_day_uniqueness_witness :
    (∀ da ∈ (rootNode scenario_problem).assignments, da.1 < (rootNode scenario_problem).current_day) ∧
      ∀ c ∈ generate_children scenario_problem (rootNode scenario_problem),
        c.current_day = (rootNode scenario_problem).current_day + 1 ∧
          (c.assignments = (rootNode scenario_problem).assignments ∨
            ∃ sessions, c.assignments = (rootNode scenario_problem).assignments ++
              [((rootNode scenario_problem).current_day, sessions)]) :=
  C10_day_uniqueness scenario_problem (rootNode scenario_problem) ReachableNode.root

/-!  Heap-order lemmas for the truncation claim. -/

theorem entryLE_refl (a : FrontierEntry) : entryLE a a = true := by
  simp [entryLE]

theorem entryLE_trans (a b c : FrontierEntry) (h1 : entryLE a b = true)
    (h2 : entryLE b c = true) : entryLE a c = true := by
  simp only [entryLE, Bool.or_eq_true, Bool.and_eq_true, decide_eq_true_iff] at h1 h2 ⊢
  rcases h1 with hlt | ⟨heq, hle⟩
  · rcases h2 with hlt' | ⟨heq', _⟩
    · exact Or.inl (lt_trans hlt hlt')
    · exact Or.inl (heq' ▸ hlt)
  · rcases h2 with hlt' | ⟨heq', hle'⟩
    · exact Or.inl (heq ▸ hlt')
    · exact Or.inr ⟨heq.trans heq', le_trans hle hle'⟩

theorem heapInvB_parent (q : List FrontierEntry) (h : heapInvB q = true) (j : ℕ)
    (hj : j < q.length) (hj0 : 1 ≤ j) :
    entryLE (q.getD ((j - 1) / 2) defaultEntry) (q.getD j defaultEntry) = true := by
  unfold heapInvB at h
  have hx := List.all_eq_true.mp h j (List.mem_range.mpr hj)
  rcases (Bool.or_eq_true ..).mp hx with h0 | hle
  · exfalso
    have := of_decide_eq_true h0
    omega
  · exact hle

theorem heap_root_min (q : List FrontierEntry) (h : heapInvB q = true) :
    ∀ j, j < q.length → entryLE (q.getD 0 defaultEntry) (q.getD j defaultEntry) = true := by
  intro j
  induction j using Nat.strong_induction_on with
  | _ j ih =>
      intro hj
      rcases Nat.eq_zero_or_pos j with h0 | hpos
      · subst h0
        exact entryLE_refl _
      · have hdiv := Nat.div_le_self (j - 1) 2
        have hpar : (j - 1) / 2 < j := by omega
        have h1 := ih ((j - 1) / 2) hpar (lt_trans hpar hj)
        exact entryLE_trans _ _ _ h1 (heapInvB_parent q h j hj hpos)

/-- C4 (amended): the truncation keeps the first half of the heap array and
re-heapifies it; since the root of a valid heap array is its minimum key (and
keys are negated bounds), the retained frontier always contains an entry of
globally greatest upper bound — but not necessarily the best-bound half. -/
theorem C4_truncation_keeps_best (problem : SchedulingProblem) (q : List FrontierEntry)
    (hinv : heapInvB q = true) (hlen : max_queue_size problem < q.length) :
    ∃ e ∈ truncate_queue (max_queue_size problem) q, ∀ x ∈ q, entryBound x ≤ entryBound e := by
  have hcap : 0 < max_queue_size problem / 2 := by
    unfold max_queue_size
    split <;> norm_num
  have hq0 : 0 < q.length := by
    have : 0 < max_queue_size problem := by unfold max_queue_size; split <;> norm_num
    omega
  refine ⟨q.getD 0 defaultEntry, ?_, ?_⟩
  · unfold truncate_queue
    rw [if_pos hlen]
    apply (heapify_perm _).mem_iff.mpr
    cases q with
    | nil => simp at hq0
    | cons a t =>
        have hsucc : max_queue_size problem / 2 = (max_queue_size problem / 2 - 1) + 1 := by omega
        rw [hsucc]
        simp
  · intro x hx
    rcases List.mem_iff_getElem.mp hx with ⟨j, hj, hxe⟩
    have hmin := heap_root_min q hinv j hj
    have hg : q.getD j defaultEntry = x := by rw [List.getD_eq_getElem _ _ hj, hxe]
    rw [hg] at hmin
    simp only [entryLE, Bool.or_eq_true, Bool.and_eq_true, decide_eq_true_iff] at hmin
    unfold entryBound
    rcases hmin with hlt | ⟨heq, _⟩
    · linarith
    · rw [heq]

theorem mkQ_length : ∀ (n i : ℕ), (mkQ i n).length = n := by
  intro n
  induction n with
  | zero => intro i; rfl
  | succ n ih => intro i; simp [mkQ, ih]

theorem exQ_length : exQ.length = 1001 := mkQ_length 1001 0

theorem mkQ_getD : ∀ (n i j : ℕ) (d : FrontierEntry), j < n →
    (mkQ i n).getD j d = (exKey (i + j), i + j, defaultNode) := by
  intro n
  induction n with
  | zero => intro i j d h; omega
  | succ n ih =>
      intro i j d h
      cases j with
      | zero => simp [mkQ]
      | succ m =>
          have hm : m < n := by omega
          show (mkQ (i + 1) n).getD m d = _
          rw [ih (i + 1) m d hm]
          have : i + 1 + m = i + (m + 1) := by omega
          rw [this]

theorem exQ_getD (j : ℕ) (d : FrontierEntry) (h : j < 1001) :
    exQ.getD j d = (exKey j, j, defaultNode) := by
  unfold exQ
  rw [mkQ_getD 1001 0 j d h]
  simp

theorem exKey_cases (i : ℕ) : exKey i ≤ 9 ∨ exKey i = ((100 + i : ℕ) : ℚ) := by
  unfold exKey
  split_ifs <;> first | (right; rfl) | (left; norm_num)

theorem exKey_not_path (i : ℕ) (h0 : ¬ i = 0) (h2 : ¬ i = 2) (h6 : ¬ i = 6) (h14 : ¬ i = 14)
    (h30 : ¬ i = 30) (h61 : ¬ i = 61) (h124 : ¬ i = 124) (h249 : ¬ i = 249)
    (h499 : ¬ i = 499) (h1000 : ¬ i = 1000) : exKey i = ((100 + i : ℕ) : ℚ) := by
  unfold exKey
  rw [if_neg h0, if_neg h2, if_neg h6, if_neg h14, if_neg h30, if_neg h61, if_neg h124,
    if_neg h249, if_neg h499, if_neg h1000]

theorem exKey_parent_lt (j : ℕ) (h1 : 1 ≤ j) (h2 : j ≤ 1000) : exKey ((j - 1) / 2) < exKey j := by
  by_cases hp : j = 2 ∨ j = 6 ∨ j = 14 ∨ j = 30 ∨ j = 61 ∨ j = 124 ∨ j = 249 ∨ j = 499 ∨ j = 1000
  · rcases hp with h | h | h | h | h | h | h | h | h <;> subst h <;> decide
  · push_neg at hp
    obtain ⟨n2, n6, n14, n30, n61, n124, n249, n499, n1000⟩ := hp
    have hj : exKey j = ((100 + j : ℕ) : ℚ) :=
      exKey_not_path j (by omega) n2 n6 n14 n30 n61 n124 n249 n499 n1000
    have hplt : (j - 1) / 2 < j := by
      have := Nat.div_le_self (j - 1) 2
      omega
    rcases exKey_cases ((j - 1) / 2) with hle | heq
    · rw [hj]
      have : (9 : ℚ) < ((100 + j : ℕ) : ℚ) := by
        have : (100 : ℚ) ≤ ((100 + j : ℕ) : ℚ) := by
          push_cast
          have : (0 : ℚ) ≤ (j : ℚ) := by positivity
          linarith
        linarith
      linarith
    · rw [hj, heq]
      have : ((100 + (j - 1) / 2 : ℕ) : ℚ) < ((100 + j : ℕ) : ℚ) := by
        exact_mod_cast Nat.add_lt_add_left hplt 100
      linarith

theorem exQ_heapInv : heapInvB exQ = true := by
  unfold heapInvB
  rw [List.all_eq_true]
  intro j hj
  rw [List.mem_range, exQ_length] at hj
  rcases Nat.eq_zero_or_pos j with h0 | hpos
  · subst h0
    simp
  · rw [Bool.or_eq_true]
    right
    have hpar : (j - 1) / 2 < 1001 := by
      have := Nat.div_le_self (j - 1) 2
      omega
    rw [exQ_getD ((j - 1) / 2) defaultEntry hpar, exQ_getD j defaultEntry hj]
    unfold entryLE
    rw [Bool.or_eq_true]
    left
    exact decide_eq_true (exKey_parent_lt j hpos (by omega))

theorem getD_mem_of_lt {α : Type} (l : List α) (j : ℕ) (d : α) (h : j < l.length) :
    l.getD j d ∈ l := by
  rw [List.getD_eq_getElem l d h]
  exact List.getElem_mem h

theorem exQ_dropped_mem : ((9 : ℚ), (1000 : ℕ), defaultNode) ∈ exQ := by
  have h : exQ.getD 1000 defaultEntry = ((9 : ℚ), (1000 : ℕ), defaultNode) := by
    rw [exQ_getD 1000 defaultEntry (by omega)]
    norm_num [exKey]
  rw [← h]
  apply getD_mem_of_lt
  rw [exQ_length]
  omega

theorem exQ_take_getD (j : ℕ) (d : FrontierEntry) (h : j < 500) :
    (exQ.take 500).getD j d = (exKey j, j, defaultNode) := by
  have hlen : j < (exQ.take 500).length := by
    rw [List.length_take, exQ_length]
    omega
  rw [List.getD_eq_getElem _ d hlen, List.getElem_take]
  have h1001 : j < 1001 := by omega
  rw [← exQ_getD j d h1001, List.getD_eq_getElem _ d (by rw [exQ_length]; omega)]

theorem exQ_dropped_not_in_half : ((9 : ℚ), (1000 : ℕ), defaultNode) ∉ exQ.take 500 := by
  intro hmem
  rcases List.mem_iff_getElem.mp hmem with ⟨j, hj, hje⟩
  have hj500 : j < 500 := by
    have := hj
    rw [List.length_take, exQ_length] at this
    omega
  have := exQ_take_getD j defaultEntry hj500
  rw [List.getD_eq_getElem _ _ hj, hje] at this
  have hsnd : (1000 : ℕ) = j := congrArg (fun p => p.2.1) this
  omega

theorem exQ_kept_in_half : ((103 : ℚ), (3 : ℕ), defaultNode) ∈ exQ.take 500 := by
  have h : (exQ.take 500).getD 3 defaultEntry = ((103 : ℚ), (3 : ℕ), defaultNode) := by
    rw [exQ_take_getD 3 defaultEntry (by omega)]
    norm_num [exKey]
  rw [← h]
  apply getD_mem_of_lt
  rw [List.length_take, exQ_length]
  omega

theorem cex6_cap : max_queue_size cex6_problem = 1000 := by decide

theorem C4_truncation_keeps_best_witness :
    ∃ e ∈ truncate_queue (max_queue_size cex6_problem) exQ, ∀ x ∈ exQ, entryBound x ≤ entryBound e :=
  C4_truncation_keeps_best cex6_problem exQ exQ_heapInv (by rw [exQ_length, cex6_cap]; omega)

/-- C4 (counterexample): a valid 1001-entry frontier for a 6-task problem in
which truncation drops the entry of bound -9 (array index 1000) while keeping
an entry of bound -103, so the retained set is not the globally best-bound
half. -/
theorem C4_counterexample :
    heapInvB exQ = true ∧ max_queue_size cex6_problem < exQ.length ∧
      ((9 : ℚ), (1000 : ℕ), defaultNode) ∈ exQ ∧
      ((9 : ℚ), (1000 : ℕ), defaultNode) ∉ truncate_queue (max_queue_size cex6_problem) exQ ∧
      ((103 : ℚ), (3 : ℕ), defaultNode) ∈ truncate_queue (max_queue_size cex6_problem) exQ ∧
      entryBound ((103 : ℚ), (3 : ℕ), defaultNode) < entryBound ((9 : ℚ), (1000 : ℕ), defaultNode) := by
  have hlen : max_queue_size cex6_problem < exQ.length := by rw [exQ_length, cex6_cap]; omega
  have hhalf : max_queue_size cex6_problem / 2 = 500 := by rw [cex6_cap]
  refine ⟨exQ_heapInv, hlen, exQ_dropped_mem, ?_, ?_, by decide⟩
  · intro hmem
    unfold truncate_queue at hmem
    rw [if_pos hlen, hhalf] at hmem
    exact exQ_dropped_not_in_half ((heapify_perm _).mem_iff.mp hmem)
  · unfold truncate_queue
    rw [if_pos hlen, hhalf]
    exact (heapify_perm _).mem_iff.mpr exQ_kept_in_half

/-!  Bound-versus-score lemmas. -/

theorem optimistic_future_nonneg (problem : SchedulingProblem) (n : ScheduleNode)
    (hp : ∀ t ∈ n.remaining_tasks, 0 ≤ t.priority) : 0 ≤ optimistic_future problem n := by
  unfold optimistic_future
  apply List.sum_nonneg
  intro x hx
  rcases List.mem_map.mp hx with ⟨task, htask, hxe⟩
  rcases List.mem_filter.mp htask with ⟨hmem, hpos⟩
  have hrem : 0 < task.remaining_hours := of_decide_eq_true hpos
  have hprio : (0 : ℚ) ≤ (task.priority : ℚ) := by exact_mod_cast hp task hmem
  rw [← hxe]
  dsimp only
  apply mul_nonneg
  · apply mul_nonneg
    · unfold w_priority w_time_pref w_balance
      linarith
    · split <;> norm_num
  · exact_mod_cast le_of_lt hrem

/-- C1 (amended): for nonnegative task priorities, the computed upper bound is
at least the node's own stored realized score — the optimistic-future term is
nonnegative.  (The bound is not admissible over descendants; see the
counterexample.) -/
theorem C1_bound_dominates_own_score (problem : SchedulingProblem) (n : ScheduleNode)
    (hp : ∀ t ∈ n.remaining_tasks, 0 ≤ t.priority) :
    n.objective_score ≤ (setUpperBound problem n).upper_bound := by
  have h := optimistic_future_nonneg problem n hp
  show n.objective_score ≤ n.objective_score + optimistic_future problem n
  linarith

/-- Witness for the amended C1 at the root of `cex1_problem`. -/
theorem C1_bound_dominates_own_score_witness :
    (rootNode cex1_problem).objective_score ≤
      (setUpperBound cex1_problem (rootNode cex1_problem)).upper_bound :=
  C1_bound_dominates_own_score cex1_problem (rootNode cex1_problem) (by decide)

/-- C1 (counterexample): the child committing one hour on day 1 is generated
from the root, is a complete solution, and realizes score 8.4 — strictly above
the root's upper bound 7.5, so the bound is not admissible and pruning at the
bound can discard strictly better complete solutions. -/
theorem C1_counterexample :
    cex1_child ∈ generate_children cex1_problem (rootNode cex1_problem) ∧
      is_complete_solution cex1_problem cex1_child = true ∧
      (rootNode cex1_problem).upper_bound = 15/2 ∧
      cex1_child.objective_score = 42/5 ∧
      (rootNode cex1_problem).upper_bound < cex1_child.objective_score := by
  refine ⟨by decide, by decide, by decide, by decide, by decide⟩

/-- C2: on the specification's concrete scenario, committing the full 2 hours
on day 1 scores exactly 37.2. -/
theorem C2_scenario_score :
    scenario_node.assignments = [(1, [(1, 2)])] ∧
      calculate_objective_score scenario_problem scenario_node = 37.2 ∧
      scenario_node.objective_score = 37.2 := by
  have h372 : (37.2 : ℚ) = 186/5 := by norm_num
  refine ⟨by decide, ?_, ?_⟩ <;> rw [h372] <;> decide

/-- C3 (counterexample): at day 5 of a 5-day horizon with a deadline-1 task,
the code's clamped deadline-factor condition yields bound 7.5 while the
specification's unclamped wording yields 5.25. -/
theorem C3_counterexample :
    (setUpperBound cex3_problem cex3_node).upper_bound = 15/2 ∧
      spec_upper_bound cex3_problem cex3_node = 21/4 ∧
      (setUpperBound cex3_problem cex3_node).upper_bound ≠ spec_upper_bound cex3_problem cex3_node := by
  refine ⟨by decide, by decide, by decide⟩

/-- C3 (amended): the computed upper bound equals the specification formula
once the days-until-deadline side of the factor comparison is clamped with
`max 1`. -/
theorem C3_upper_bound_formula (problem : SchedulingProblem) (n : ScheduleNode) :
    (setUpperBound problem n).upper_bound = amended_upper_bound problem n := by
  show n.objective_score + optimistic_future problem n = amended_upper_bound problem n
  unfold optimistic_future amended_upper_bound
  congr 1
  refine congrArg List.sum (List.map_congr_left ?_)
  intro task ht
  dsimp only
  by_cases hc : max 1 (task.deadline - n.current_day + 1) < problem.max_days - n.current_day + 1
  · ring
  · ring

/-- C6 (amended): every assignments entry of a generated child is either
inherited from the parent or a new day whose sessions all either meet the
minimum-session floor or commit exactly the full remaining hours of the
session's task in the parent snapshot (the smart generator's
complete-a-subject strategy). -/
theorem C6_session_floor (problem : SchedulingProblem) (n c : ScheduleNode)
    (hc : c ∈ generate_children problem n) :
    ∀ da ∈ c.assignments, da ∈ n.assignments ∨
      ∀ s ∈ da.2, problem.min_session_hours ≤ s.2 ∨
        ∃ t ∈ n.remaining_tasks, t.subject_id = s.1 ∧ s.2 = t.remaining_hours := by
  rcases generate_children_cases _ _ _ hc with he | ⟨combo, hcombo, he, _⟩
  · intro da hda
    rw [he, skip_child_assignments] at hda
    exact Or.inl hda
  · intro da hda
    rw [he, child_node_assignments] at hda
    rcases selected_combinations_spec _ _ _ _ hcombo with ⟨_, hne, hsess⟩
    rw [if_neg (by simpa using hne)] at hda
    rcases dictInsert_mem _ _ _ _ hda with hm | heq
    · exact Or.inl hm
    · right
      intro s hs
      rw [heq] at hs
      rcases hsess s hs with ⟨t, ht, hid, hfl⟩
      rcases available_subjects_mem _ _ ht with ⟨htm, _⟩
      rcases hfl with hmin | hcomp
      · exact Or.inl hmin
      · exact Or.inr ⟨t, htm, hid, hcomp⟩

/-- Witness for the amended C6 on the six-task instance. -/
theorem C6_session_floor_witness :
    (cex6_bad ∈ generate_children cex6_problem cex6_mid) ∧
      ∀ da ∈ cex6_bad.assignments, da ∈ cex6_mid.assignments ∨
        ∀ s ∈ da.2, cex6_problem.min_session_hours ≤ s.2 ∨
          ∃ t ∈ cex6_mid.remaining_tasks, t.subject_id = s.1 ∧ s.2 = t.remaining_hours :=
  ⟨by decide, C6_session_floor cex6_problem cex6_mid cex6_bad (by decide)⟩

/-- C6 (counterexample): from a reachable six-task node where task 1 has a
single remaining hour and the floor is 2, the child generator emits a child
committing a 1-hour session — below `min_session_hours`. -/
theorem C6_counterexample :
    cex6_mid ∈ generate_children cex6_problem (rootNode cex6_problem) ∧
      cex6_bad ∈ generate_children cex6_problem cex6_mid ∧
      (2, [(1, 1)]) ∈ cex6_bad.assignments ∧
      ¬ cex6_problem.min_session_hours ≤ (1 : ℤ) := by
  refine ⟨by decide, by decide, by decide, by decide⟩

/-- C7 (amended): every node returned by the child generator other than the
skip-day child has `is_feasible = true`; the skip child is returned even when
its feasibility check fails. -/
theorem C7_children_feasible (problem : SchedulingProblem) (n c : ScheduleNode)
    (hc : c ∈ generate_children problem n) :
    c.is_feasible = true ∨ c = create_skip_day_child problem n := by
  rcases generate_children_cases _ _ _ hc with he | ⟨_, _, _, hf⟩
  · exact Or.inr he
  · exact Or.inl hf

/-- Witness for the amended C7 at the root of `cex7_problem`. -/
theorem C7_children_feasible_witness :
    (create_skip_day_child cex7_problem (rootNode cex7_problem)).is_feasible = true ∨
      create_skip_day_child cex7_problem (rootNode cex7_problem) =
        create_skip_day_child cex7_problem (rootNode cex7_problem) :=
  C7_children_feasible cex7_problem (rootNode cex7_problem)
    (create_skip_day_child cex7_problem (rootNode cex7_problem)) (by decide)

/-- C7 (counterexample): the root's skip child of `cex7_problem` fails the
feasibility check yet is returned by `_generate_children`. -/
theorem C7_counterexample :
    create_skip_day_child cex7_problem (rootNode cex7_problem) ∈
        generate_children cex7_problem (rootNode cex7_problem) ∧
      (create_skip_day_child cex7_problem (rootNode cex7_problem)).is_feasible = false := by
  refine ⟨by decide, by decide⟩

/-- C9: copy-on-branch — creating a child (with or without a day combination)
allocates fresh store cells for the child's assignments dict and task
snapshot; every structure visible through the parent's references, and the
problem's original task list, dereference to the same values before and after,
and the scorer, bound and feasibility computations only read the store. -/
theorem C9_copy_on_branch (store : ObjStore) (pr : ProblemRef) (parent : NodeRef) (day : ℤ)
    (combination : List (ℤ × ℤ))
    (hpa : parent.assignRef < store.dicts.length)
    (hpt : parent.tasksRef < store.taskLists.length)
    (hpr : pr.tasksRef < store.taskLists.length) :
    derefNode (create_child_node_ref store pr parent day combination).2 parent =
        derefNode store parent ∧
      derefProblem (create_child_node_ref store pr parent day combination).2 pr =
        derefProblem store pr ∧
      derefNode (create_skip_day_child_ref store pr parent).2 parent = derefNode store parent ∧
      derefProblem (create_skip_day_child_ref store pr parent).2 pr = derefProblem store pr := by
  unfold create_child_node_ref create_skip_day_child_ref derefNode derefProblem
  dsimp only
  refine ⟨?_, ?_, ?_, ?_⟩
  · rw [List.getD_append _ _ _ _ hpa, List.getD_append _ _ _ _ hpt]
  · rw [List.getD_append _ _ _ _ hpr]
  · rw [List.getD_append _ _ _ _ hpa, List.getD_append _ _ _ _ hpt]
  · rw [List.getD_append _ _ _ _ hpr]

/-- Witness for C9 on a concrete two-cell store. -/
theorem C9_copy_on_branch_witness :
    derefNode (create_child_node_ref cex9_store cex9_problem_ref cex9_parent 1 [(1, 2)]).2 cex9_parent =
        derefNode cex9_store cex9_parent ∧
      derefProblem (create_child_node_ref cex9_store cex9_problem_ref cex9_parent 1 [(1, 2)]).2 cex9_problem_ref =
        derefProblem cex9_store cex9_problem_ref ∧
      derefNode (create_skip_day_child_ref cex9_store cex9_problem_ref cex9_parent).2 cex9_parent =
        derefNode cex9_store cex9_parent ∧
      derefProblem (create_skip_day_child_ref cex9_store cex9_problem_ref cex9_parent).2 cex9_problem_ref =
        derefProblem cex9_store cex9_problem_ref :=
  C9_copy_on_branch cex9_store cex9_problem_ref cex9_parent 1 [(1, 2)] (by decide) (by decide) (by decide)

/-- C5: capacity invariant — every schedule returned by solve commits at most
`max_daily_hours` total hours on every day present in its assignments. -/
theorem C5_solve_capacity (problem : SchedulingProblem) (fuel : ℕ) (sol : ScheduleNode)
    (h : solveBB problem fuel = some sol) :
    ∀ da ∈ sol.assignments, sum_hours da.2 ≤ problem.max_daily_hours := by
  exact solveBB_P problem (capacityOK problem) (capacityOK_root problem)
    (fun n c hP hc _ => capacityOK_children problem n c hP hc)
    (fun n hP => hP) fuel sol h

/-- Witness for C5: the search on the scenario problem returns a schedule
and the capacity bound holds for it. -/
theorem C5_solve_capacity_witness :
    (solveBB scenario_problem 20).isSome = true ∧
      (∀ sol, solveBB scenario_problem 20 = some sol →
        ∀ da ∈ sol.assignments, sum_hours da.2 ≤ scenario_problem.max_daily_hours) :=
  ⟨by decide, fun sol h => C5_solve_capacity scenario_problem 20 sol h⟩
